import Mathlib

/-! Time keeper of the block chain (`src/blockchain/blockchain_time_keeper.cpp`)

A shallow embedding of `bts::blockchain::time_keeper` and of its implementation
object `detail::time_keeper_impl`, followed by theorems about it.

Conventions of the embedding

* `fc::time_point` and `fc::microseconds` are counts of microseconds held in an
  `int64_t`; they are embedded as `Int`.  `fc::seconds (n)` is `n * 1000000`
  microseconds.  The sums, differences and products of times are computed in
  `int64_t`: the value the operation leaves is the two's complement reduction
  `to_int64` of the exact result (lines 61, 119, 150, 169 and 173).  The signed
  operations of `update_next_difficulty` (lines 77, 96 and 98) are on a median
  error that was read from an `int32_t` member and on an interval that
  `configure` obtained by dividing a 64-bit count by 1000000, so their exact
  results are within 64 bits and they are written without the reduction.
* `uint32_t` and `uint64_t` values are embedded as `Nat`; where the source
  computes in the unsigned type the reduction `% 2 ^ 32` or `% 2 ^ 64` is
  written out.  The conversion to `int32_t` made by the `time_record`
  constructor is `to_int32`.
* `/` on `int64_t` truncates toward zero: `Int.tdiv`.  A zero divisor and an
  out-of-range subscript are undefined behaviour: the functions that can reach
  one return `Option`, and `none` stands for it.
* `FC_ASSERT` throws; a call that throws leaves the object in the state it had
  when the assertion failed (`outcome.threw`).
-/

namespace bts.blockchain

/-! ## Machine arithmetic -/

/-- Conversion of an integer to `int32_t` (two's complement, modulo `2 ^ 32`). -/
def to_int32 (x : Int) : Int := (x + 2 ^ 31) % 2 ^ 32 - 2 ^ 31

/-- Conversion of an `int64_t` to `uint64_t` (modulo `2 ^ 64`), as the usual
arithmetic conversions do when the other operand is a `uint64_t`. -/
def to_uint64 (x : Int) : Nat := (x % 2 ^ 64).toNat

/-- Reduction of an integer to `int64_t` (two's complement, modulo `2 ^ 64`): the
value a signed 64-bit sum, difference or product leaves. -/
def to_int64 (x : Int) : Int := (x + 2 ^ 63) % 2 ^ 64 - 2 ^ 63

/-- Division of `int64_t`: truncating, undefined (`none`) for a zero divisor. -/
def int64_div (a b : Int) : Option Int := if b = 0 then none else some (Int.tdiv a b)

/-- The microseconds of `fc::seconds (n)`: the product `n * 1000000` in `int64_t`. -/
def seconds (n : Int) : Int := to_int64 (n * 1000000)

/-! ## Data model -/

/-- The record `detail::time_record` (lines 15-25). -/
structure time_record where
  /-- Field `uint32_t block_num`. -/
  block_num : Nat
  /-- Field `fc::time_point block_time`, in microseconds. -/
  block_time : Int
  /-- Field `uint64_t block_difficulty`. -/
  block_difficulty : Nat
  /-- Field `int32_t time_error_sec`. -/
  time_error_sec : Int
  deriving DecidableEq

/-- The four-argument constructor of `time_record` (lines 18-19): its last
parameter is declared `uint64_t` and initialises the `int32_t` member, so the
error is reduced to 32 bits. -/
def time_record.mk4 (num : Nat) (blk_t : Int) (difficulty : Nat) (error_sec : Int) : time_record :=
  { block_num := num, block_time := blk_t, block_difficulty := difficulty,
    time_error_sec := to_int32 error_sec }

/-- The class `detail::time_keeper_impl` (lines 27-44): the whole state of a
time keeper. -/
structure time_keeper_impl where
  /-- Field `fc::time_point _origin_time`. -/
  _origin_time : Int
  /-- Field `fc::microseconds _block_interval`. -/
  _block_interval : Int
  /-- Field `uint32_t _window`. -/
  _window : Nat
  /-- Field `uint64_t _cur_difficulty`. -/
  _cur_difficulty : Nat
  /-- Field `uint64_t _next_difficulty`. -/
  _next_difficulty : Nat
  /-- Field `fc::time_point _cur_time`. -/
  _cur_time : Int
  /-- Field `std::deque<time_record> _records`, front first. -/
  _records : List time_record
  /-- Field `int64_t _interval_sec`. -/
  _interval_sec : Int
  /-- Field `int64_t _median_time_error_sec`. -/
  _median_time_error_sec : Int
  deriving DecidableEq

/-- The assertions of the file, one name for each `FC_ASSERT`. -/
inductive fc_assert where
  /-- Line 166: `_records.size() > 0`. -/
  | records_size
  /-- Line 167: `_records.back().block_num + 1 == block_num`. -/
  | block_num
  /-- Line 168: `block_difficulty >= _next_difficulty`. -/
  | block_difficulty
  /-- Line 169: `block_time >= _cur_time - fc::seconds(...)`. -/
  | block_time
  /-- Line 190: `!"Not tested"`. -/
  | not_tested
  deriving DecidableEq

/-- What a call of a mutating member function does to the object. -/
inductive outcome where
  /-- The call returned; the object is in state `my`. -/
  | returned (my : time_keeper_impl)
  /-- The assertion `a` threw; the object is in state `my`. -/
  | threw (a : fc_assert) (my : time_keeper_impl)
  /-- The call reached undefined behaviour (a zero divisor or a subscript out
  of range). -/
  | undefined
  deriving DecidableEq

/-! ## `time_keeper_impl` -/

/-- The element `_records[i]` for the comparators of the selections; the
subscripts handed to them are positions of `_records`. -/
def record_at (my : time_keeper_impl) (i : Nat) : time_record :=
  my._records.getD i { block_num := 0, block_time := 0, block_difficulty := 0, time_error_sec := 0 }

/-- Member `head_block_num` (lines 124-128). -/
def head_block_num (my : time_keeper_impl) : Nat :=
  match my._records.getLast? with
  | none => 0
  | some r => r.block_num

/-- Member `expected_time` (lines 59-62): `_origin_time + fc::seconds (block_num * _interval_sec)`,
the product, the seconds and the sum each in `int64_t`. -/
def expected_time (my : time_keeper_impl) (block_num : Nat) : Int :=
  to_int64 (my._origin_time + seconds (to_int64 ((block_num : Int) * my._interval_sec)))

/-- Insertion of `a` into a list ordered by the comparator `comp`, after the
elements that `comp` puts before it. -/
def ordered_insert (comp : Nat → Nat → Bool) (a : Nat) : List Nat → List Nat
  | [] => [a]
  | b :: l => if comp b a then b :: ordered_insert comp a l else a :: b :: l

/-- The library routine `std::nth_element (first, nth, last, comp)`: it permutes the
range so that the element at `nth` is the one a sort by `comp` would put there,
nothing before it is after it and nothing after it is before it.  The routine is
embedded by a complete insertion sort, which is one of the permutations the
contract allows. -/
def nth_element (comp : Nat → Nat → Bool) (index : List Nat) : List Nat :=
  index.foldr (ordered_insert comp) []

/-- Member `update_current_time` (lines 112-122).  Returns the state and the
index vector, which the caller passes on by reference. -/
def update_current_time (my : time_keeper_impl) (index : List Nat) :
    Option (time_keeper_impl × List Nat) :=
  let median_pos := index.length / 2
  let index1 := nth_element
    (fun a b => decide ((record_at my a).time_error_sec < (record_at my b).time_error_sec)) index
  match index1[median_pos]? with
  | none => none
  | some i =>
    match my._records[i]? with
    | none => none
    | some r =>
      let my1 := { my with _median_time_error_sec := r.time_error_sec }
      some ({ my1 with _cur_time :=
                to_int64 (expected_time my1 (head_block_num my1) +
                  seconds my1._median_time_error_sec) },
            index1)

/-- Member `update_current_difficulty` (lines 64-71). -/
def update_current_difficulty (my : time_keeper_impl) (index : List Nat) :
    Option (time_keeper_impl × List Nat) :=
  let median_pos := index.length / 2
  let index1 := nth_element
    (fun a b => decide ((record_at my a).block_difficulty < (record_at my b).block_difficulty)) index
  match index1[median_pos]? with
  | none => none
  | some i =>
    match my._records[i]? with
    | none => none
    | some r => some ({ my with _cur_difficulty := r.block_difficulty }, index1)

/-- Lines 77-82 of `update_next_difficulty`: the local `current_interval`. -/
def current_interval (my : time_keeper_impl) : Int :=
  let current_interval := my._interval_sec + my._median_time_error_sec
  if current_interval ≤ 0 then 1 else current_interval

/-- Lines 95-98 of `update_next_difficulty`: the value given to the local
`time_error_percent` before it is clamped. -/
def time_error_percent (my : time_keeper_impl) : Option Int :=
  if current_interval my < my._interval_sec then
    int64_div (my._median_time_error_sec * 1000000) (current_interval my)
  else
    int64_div (my._median_time_error_sec * 1000000) my._interval_sec

/-- Lines 100-103 of `update_next_difficulty`: the clamp of `time_error_percent`. -/
def clamp_time_error_percent (time_error_percent : Int) : Int :=
  if time_error_percent > 10000000 then 9999999 else time_error_percent

/-- Lines 107-109 of `update_next_difficulty`: `_next_difficulty = _cur_difficulty`,
`_next_difficulty *= 10000000 - time_error_percent` (in `uint64_t`),
`_next_difficulty /= 10000000`. -/
def scale_difficulty (cur_difficulty : Nat) (time_error_percent : Int) : Nat :=
  let next_difficulty := cur_difficulty
  let next_difficulty := (next_difficulty * to_uint64 (10000000 - time_error_percent)) % 2 ^ 64
  next_difficulty / 10000000

/-- Member `update_next_difficulty` (lines 73-110). -/
def update_next_difficulty (my : time_keeper_impl) : Option time_keeper_impl :=
  match time_error_percent my with
  | none => none
  | some p =>
    some { my with _next_difficulty := scale_difficulty my._cur_difficulty (clamp_time_error_percent p) }

/-- Member `update_stats` (lines 46-57). -/
def update_stats (my : time_keeper_impl) : Option time_keeper_impl :=
  let index := List.range my._records.length
  match update_current_time my index with
  | none => none
  | some (my1, index1) =>
    match update_current_difficulty my1 index1 with
    | none => none
    | some (my2, _) => update_next_difficulty my2

/-! ## `time_keeper` -/

/-- The constructor `time_keeper::time_keeper` with `time_keeper_impl ()` (lines
30-31, 132-135).  The two difficulties are not initialised by the source: the
values they happen to hold are the parameters. -/
def time_keeper_new (cur_difficulty next_difficulty : Nat) : time_keeper_impl :=
  { _origin_time := 0, _block_interval := 0, _window := 0,
    _cur_difficulty := cur_difficulty, _next_difficulty := next_difficulty,
    _cur_time := 0, _records := [], _interval_sec := 0, _median_time_error_sec := 0 }

/-- Member `time_keeper::configure` (lines 137-143). -/
def configure (my : time_keeper_impl) (origin_time block_interval : Int) (window : Nat) :
    time_keeper_impl :=
  { my with _origin_time := origin_time, _block_interval := block_interval,
            _interval_sec := Int.tdiv block_interval 1000000, _window := window }

/-- Lines 150 and 173: `(block_time - expected_time (block_num)).count () / 1000000`,
the difference of the two times in `int64_t`. -/
def error_sec (my : time_keeper_impl) (block_num : Nat) (block_time : Int) : Int :=
  Int.tdiv (to_int64 (block_time - expected_time my block_num)) 1000000

/-- Lines 150-156 and 173-179: the record is appended and the front one is
dropped when the deque is longer than `_window`. -/
def append_record (my : time_keeper_impl) (block_num : Nat) (block_time : Int)
    (block_difficulty : Nat) : time_keeper_impl :=
  let my1 := { my with _records :=
    my._records ++ [time_record.mk4 block_num block_time block_difficulty
      (error_sec my block_num block_time)] }
  if my1._records.length > my1._window then { my1 with _records := my1._records.tail } else my1

/-- Member `time_keeper::push_init` (lines 148-157). -/
def push_init (my : time_keeper_impl) (block_num : Nat) (block_time : Int)
    (block_difficulty : Nat) : time_keeper_impl :=
  append_record my block_num block_time block_difficulty

/-- Member `time_keeper::init_stats` (lines 159-162). -/
def init_stats (my : time_keeper_impl) : outcome :=
  match update_stats my with
  | none => outcome.undefined
  | some my1 => outcome.returned my1

/-- Member `time_keeper::push` (lines 164-182).  The constant
`BLOCKCHAIN_TIMEKEEPER_MIN_BACK_SEC` comes from `bts/config.hpp`, which is not
among the sources; it is the first parameter, a number of seconds (the source
comments it as "1 hr grace"). -/
def push (min_back_sec : Nat) (my : time_keeper_impl) (block_num : Nat) (block_time : Int)
    (block_difficulty : Nat) : outcome :=
  match my._records.getLast? with
  | none => outcome.threw fc_assert.records_size my
  | some back =>
    if (back.block_num + 1) % 2 ^ 32 ≠ block_num then outcome.threw fc_assert.block_num my
    else if ¬ (block_difficulty ≥ my._next_difficulty) then
      outcome.threw fc_assert.block_difficulty my
    else if ¬ (block_time ≥ to_int64 (my._cur_time - seconds (min_back_sec : Int))) then
      outcome.threw fc_assert.block_time my
    else
      match update_stats (append_record my block_num block_time block_difficulty) with
      | none => outcome.undefined
      | some my1 => outcome.returned my1

/-- Member `time_keeper::pop` (lines 188-191). -/
def pop (my : time_keeper_impl) (_block_num : Nat) : outcome :=
  outcome.threw fc_assert.not_tested my

/-- Member `time_keeper::next_block_num` (lines 194-197), in `uint32_t`. -/
def next_block_num (my : time_keeper_impl) : Nat := (head_block_num my + 1) % 2 ^ 32

/-- Member `time_keeper::next_difficulty` (lines 203-206). -/
def next_difficulty (my : time_keeper_impl) : Nat := my._next_difficulty

/-- Member `time_keeper::current_difficulty` (lines 213-216). -/
def current_difficulty (my : time_keeper_impl) : Nat := my._cur_difficulty

/-- Member `time_keeper::current_time` (lines 222-225). -/
def current_time (my : time_keeper_impl) : Int := my._cur_time

/-- Member `time_keeper::next_time` (lines 234-237). -/
def next_time (my : time_keeper_impl) : Int := expected_time my (next_block_num my)

/-- The state `update_stats` leaves when the selections give the median time
error `median` and the median difficulty `difficulty` and no divisor is zero:
lines 118-119, 70 and 95-109 in turn. -/
def stats_of (my : time_keeper_impl) (median : Int) (difficulty : Nat) : time_keeper_impl :=
  let my1 := { my with _median_time_error_sec := median,
                       _cur_time := to_int64 (expected_time my (head_block_num my) +
                         seconds median),
                       _cur_difficulty := difficulty }
  { my1 with _next_difficulty := scale_difficulty difficulty (clamp_time_error_percent
      (if current_interval my1 < my1._interval_sec then
         Int.tdiv (median * 1000000) (current_interval my1)
       else Int.tdiv (median * 1000000) my1._interval_sec)) }

/-- A keeper configured with an interval of 60 s and a window of 5 that retains
block 5, entered on schedule with difficulty 100, and whose statistics are those
of that window. -/
def sample_keeper : time_keeper_impl :=
  { _origin_time := 0, _block_interval := 60000000, _window := 5,
    _cur_difficulty := 100, _next_difficulty := 100, _cur_time := 300000000,
    _records := [{ block_num := 5, block_time := 300000000, block_difficulty := 100,
                   time_error_sec := 0 }],
    _interval_sec := 60, _median_time_error_sec := 0 }

/-- The keeper `sample_keeper` after `configure` has been called again with an
interval below one second, which makes `_interval_sec` zero. -/
def zero_interval_keeper : time_keeper_impl := configure sample_keeper 0 999999 5

/-- A keeper constructed, configured with an interval of 60 s and a window of 5,
into which block 4294967295, the last number of `uint32_t`, has been entered by
`push_init` at its expected time, with difficulty 100. -/
def last_block_keeper : time_keeper_impl :=
  push_init (configure (time_keeper_new 0 0) 0 60000000 5) 4294967295 257698037700000000 100

/-- A keeper configured with an interval of 60 s and a window of 1 into which
block 1 has been entered `late_sec` seconds after its expected time, with
difficulty `difficulty`. -/
def late_keeper (late_sec : Int) (difficulty : Nat) : time_keeper_impl :=
  let my := configure (time_keeper_new 0 0) 0 60000000 1
  push_init my 1 (to_int64 (expected_time my 1 + seconds late_sec)) difficulty

/-- The keeper of the scenario: constructed, configured with an interval of 60 s
and a window of 5, blocks 1 to 5 entered by `push_init`, each at its expected
time and with difficulty `difficulty`.  The parameters `d0` and `d1` are the
values the two difficulties hold after construction. -/
def on_schedule_keeper (origin_time : Int) (d0 d1 difficulty : Nat) : time_keeper_impl :=
  let my := configure (time_keeper_new d0 d1) origin_time 60000000 5
  let my := push_init my 1 (expected_time my 1) difficulty
  let my := push_init my 2 (expected_time my 2) difficulty
  let my := push_init my 3 (expected_time my 3) difficulty
  let my := push_init my 4 (expected_time my 4) difficulty
  push_init my 5 (expected_time my 5) difficulty

/-- The keeper of the scenario once block 6 has been appended 120 s after its
expected time: blocks 2 to 6 are retained, each with the time the 64-bit sums
give it; the two difficulties and the time estimate are the parameters. -/
def late_block_keeper (origin_time : Int) (D cur_difficulty next_difficulty : Nat)
    (cur_time : Int) : time_keeper_impl :=
  { _origin_time := origin_time, _block_interval := 60000000, _window := 5,
    _cur_difficulty := cur_difficulty, _next_difficulty := next_difficulty,
    _cur_time := cur_time,
    _records :=
      [{ block_num := 2, block_time := to_int64 (origin_time + 120000000),
         block_difficulty := D, time_error_sec := 0 },
       { block_num := 3, block_time := to_int64 (origin_time + 180000000),
         block_difficulty := D, time_error_sec := 0 },
       { block_num := 4, block_time := to_int64 (origin_time + 240000000),
         block_difficulty := D, time_error_sec := 0 },
       { block_num := 5, block_time := to_int64 (origin_time + 300000000),
         block_difficulty := D, time_error_sec := 0 },
       { block_num := 6, block_time := to_int64 (origin_time + 480000000),
         block_difficulty := D, time_error_sec := 120 }],
    _interval_sec := 60, _median_time_error_sec := 0 }

/-! ## Contracts and call sequences used by the statements -/

/-- The contract of `std::nth_element (first, nth, last, comp)` on the index
vector: `result` is a rearrangement of `index`, no element before position `nth`
is ordered after the element at `nth`, and no element after position `nth` is
ordered before it. -/
def nth_element_post (comp : Nat → Nat → Bool) (index : List Nat) (nth : Nat)
    (result : List Nat) : Prop :=
  result.Perm index ∧
  ∀ (i : Nat) (hi : i < result.length) (hn : nth < result.length),
    (i < nth → comp (result.get ⟨nth, hn⟩) (result.get ⟨i, hi⟩) = false) ∧
    (nth < i → comp (result.get ⟨i, hi⟩) (result.get ⟨nth, hn⟩) = false)

/-- Following the words of the specification: the element at index `n / 2` of the
ascending-sorted list of `n` values. -/
def sorted_median {α : Type} [LinearOrder α] (values : List α) : Option α :=
  (values.insertionSort (fun a b => a ≤ b))[values.length / 2]?

/-- The call of the `const` member `next_block_num`, as the value returned and
the state of the object after the call: the body (lines 194-197) assigns no
member. -/
def next_block_num_call (my : time_keeper_impl) : Nat × time_keeper_impl :=
  (next_block_num my, my)

/-- The call of the `const` member `next_time`, as the value returned and the
state of the object after the call: the body (lines 234-237) assigns no member. -/
def next_time_call (my : time_keeper_impl) : Int × time_keeper_impl :=
  (next_time my, my)

/-- A call that enters a block: `push_init` or `push`, with its arguments. -/
inductive entry_call where
  /-- The call `push_init (block_num, block_time, block_difficulty)`. -/
  | push_init (block_num : Nat) (block_time : Int) (block_difficulty : Nat)
  /-- The call `push (block_num, block_time, block_difficulty)`. -/
  | push (block_num : Nat) (block_time : Int) (block_difficulty : Nat)
  deriving DecidableEq

/-- The record an entering call constructs (lines 150-151 and 173-174). -/
def entry_call.record (my : time_keeper_impl) : entry_call → time_record
  | entry_call.push_init block_num block_time block_difficulty =>
    time_record.mk4 block_num block_time block_difficulty (error_sec my block_num block_time)
  | entry_call.push block_num block_time block_difficulty =>
    time_record.mk4 block_num block_time block_difficulty (error_sec my block_num block_time)

/-- One entering call on the state `my`: the state after it, or `none` when the
call is a `push` that does not return. -/
def enter (min_back_sec : Nat) (my : time_keeper_impl) : entry_call → Option time_keeper_impl
  | entry_call.push_init block_num block_time block_difficulty =>
    some (push_init my block_num block_time block_difficulty)
  | entry_call.push block_num block_time block_difficulty =>
    match push min_back_sec my block_num block_time block_difficulty with
    | outcome.returned my1 => some my1
    | _ => none

/-- A sequence of entering calls, each on the state the one before it leaves. -/
def enter_all (min_back_sec : Nat) (my : time_keeper_impl) : List entry_call → Option time_keeper_impl
  | [] => some my
  | call :: calls =>
    match enter min_back_sec my call with
    | none => none
    | some my1 => enter_all min_back_sec my1 calls

/-- A keeper constructed, configured with an interval of 999999 microseconds
(below one second) and a window of 5, into which block 1 has been entered by
`push_init` with time 0 and difficulty 100. -/
def sub_second_keeper : time_keeper_impl :=
  push_init (configure (time_keeper_new 0 0) 0 999999 5) 1 0 100

end bts.blockchain

namespace bts

/-! ## Proof of work (`src/proof_of_work.cpp`)

The buffer of 128 MiB is embedded as the list of its 64-bit words.  The generator
(`SFMT.h`) and the two hashes (`fc/crypto/city.hpp`, `bts/mini_pow.hpp`) are
library routines that are not among the sources; they are the fields of
`pow_library`. -/

/-- The macro `MB128` (line 12). -/
def MB128 : Nat := 128 * 1024 * 1024

/-- The library routines `proof_of_work` calls. -/
structure pow_library (sha256 hash128 mini_pow : Type) where
  /-- The word number `i` that `sfmt_fill_array64` writes after
  `sfmt_init_by_array` has seeded the generator with the words of `in`. -/
  sfmt : sha256 → Nat → Nat
  /-- The routine `fc::city_hash_crc_128` on the bytes of the buffer. -/
  city_hash_crc_128 : List Nat → hash128
  /-- The routine `mini_pow_hash` on the bytes of the 128-bit hash. -/
  mini_pow_hash : hash128 → mini_pow

/-- The call `sfmt_fill_array64 (&gen, buf, size)` (lines 65-67): the first `size`
words of the buffer are overwritten by the generated words. -/
def sfmt_fill_array64 {sha256 hash128 mini_pow : Type} (lib : pow_library sha256 hash128 mini_pow)
    (inp : sha256) (buf : List Nat) (size : Nat) : List Nat :=
  (List.range size).map (lib.sfmt inp) ++ buf.drop size

/-- The call `std::swap (buf[i], buf[j])`. -/
def swap_words (buf : List Nat) (i j : Nat) : List Nat :=
  (buf.set i (buf.getD j 0)).set j (buf.getD i 0)

/-- One round of the loop of lines 72-78, for the counter `x`, on the buffer and
the running `data`. -/
def mix_round (s : Nat) (st : List Nat × Nat) (x : Nat) : List Nat × Nat :=
  let d := st.2 % s
  let tmp := st.2 ^^^ st.1.getD d 0
  (swap_words st.1 (tmp % s) d, tmp * ((x + 17) % 2 ^ 32) % 2 ^ 64)

/-- The function `proof_of_work (in, buffer_128m)` (lines 60-82). -/
def proof_of_work {sha256 hash128 mini_pow : Type} (lib : pow_library sha256 hash128 mini_pow)
    (inp : sha256) (buffer_128m : List Nat) : mini_pow :=
  let s := MB128 / 8
  let buf := sfmt_fill_array64 lib inp buffer_128m s
  let data := buf.getD (s - 1) 0
  let mixed := (List.range 1024).foldl (mix_round s) (buf, data)
  let out := lib.city_hash_crc_128 mixed.1
  lib.mini_pow_hash out

/-- The function `proof_of_work (in)` (lines 16-29): the buffer is allocated by
`new unsigned char[MB128]`, which does not initialise it; its content is the
parameter `uninitialised`. -/
def proof_of_work_alloc {sha256 hash128 mini_pow : Type}
    (lib : pow_library sha256 hash128 mini_pow) (inp : sha256) (uninitialised : List Nat) :
    mini_pow :=
  proof_of_work lib inp uninitialised

end bts

namespace bts

/-- A stand-in for the library, for the witnesses: the generator adds the seed to
the position, the first hash adds the words up and the second is the identity. -/
def sample_pow_library : pow_library Nat Nat Nat :=
  { sfmt := fun seed i => seed + i, city_hash_crc_128 := List.sum, mini_pow_hash := id }

end bts

namespace bts.blockchain

/-! ## Lemmas on the 64-bit arithmetic -/

set_option maxRecDepth 2000

/-- The reduction leaves a value of `int64_t`. -/
theorem to_int64_range (x : Int) : -2 ^ 63 ≤ to_int64 x ∧ to_int64 x < 2 ^ 63 := by
  unfold to_int64
  omega

/-- The reduction leaves a value of `int64_t` as it is. -/
theorem to_int64_of_fits (x : Int) (hlo : -2 ^ 63 ≤ x) (hhi : x < 2 ^ 63) : to_int64 x = x := by
  unfold to_int64
  omega

/-- The reduction changes every value that is not one of `int64_t`. -/
theorem to_int64_eq_iff (x : Int) : to_int64 x = x ↔ -2 ^ 63 ≤ x ∧ x < 2 ^ 63 := by
  unfold to_int64
  omega

/-- A sum in `int64_t` of a reduced term is the reduction of the exact sum. -/
theorem to_int64_add_right (a b : Int) : to_int64 (a + to_int64 b) = to_int64 (a + b) := by
  unfold to_int64
  omega

/-- A sum in `int64_t` of a reduced term is the reduction of the exact sum. -/
theorem to_int64_add_left (a b : Int) : to_int64 (to_int64 a + b) = to_int64 (a + b) := by
  unfold to_int64
  omega

/-- A difference in `int64_t` of a reduced term is the reduction of the exact
difference. -/
theorem to_int64_sub_right (a b : Int) : to_int64 (a - to_int64 b) = to_int64 (a - b) := by
  unfold to_int64
  omega

/-- A difference in `int64_t` from a reduced term is the reduction of the exact
difference. -/
theorem to_int64_sub_left (a b : Int) : to_int64 (to_int64 a - b) = to_int64 (a - b) := by
  unfold to_int64
  omega

/-- The seconds of a reduced number are the reduction of the exact product. -/
theorem seconds_to_int64 (n : Int) : seconds (to_int64 n) = to_int64 (n * 1000000) := by
  unfold seconds to_int64
  omega

/-- The expected time is the reduction of the exact
`_origin_time + block_num * _interval_sec * 1000000`. -/
theorem expected_time_eq (my : time_keeper_impl) (n : Nat) :
    expected_time my n = to_int64 (my._origin_time + (n : Int) * my._interval_sec * 1000000) := by
  unfold expected_time
  rw [seconds_to_int64, to_int64_add_right]

/-- The threshold of line 169 is the reduction of the exact difference. -/
theorem threshold_eq (cur_time : Int) (min_back_sec : Nat) :
    to_int64 (cur_time - seconds (min_back_sec : Int)) =
      to_int64 (cur_time - (min_back_sec : Int) * 1000000) := by
  unfold seconds
  rw [to_int64_sub_right]

/-- A truncated quotient by 1000000 that fits 32 bits comes from a numerator that
fits 64 bits. -/
theorem fits_of_tdiv_fits (d : Int) (hlo : -2 ^ 31 ≤ Int.tdiv d 1000000)
    (hhi : Int.tdiv d 1000000 < 2 ^ 31) : -2 ^ 63 ≤ d ∧ d < 2 ^ 63 := by
  rcases Int.le_total 0 d with h | h
  · rw [Int.tdiv_eq_ediv h (by decide)] at hlo hhi
    omega
  · have h1 : Int.tdiv d 1000000 = -((-d) / 1000000) := by
      rw [← Int.tdiv_eq_ediv (by omega) (by decide), Int.neg_tdiv, neg_neg]
    rw [h1] at hlo hhi
    omega

/-! ## Lemmas on the selection -/

/-- The insertion keeps the elements. -/
theorem ordered_insert_perm (comp : Nat → Nat → Bool) (a : Nat) (l : List Nat) :
    (ordered_insert comp a l).Perm (a :: l) := by
  induction l with
  | nil => exact List.Perm.refl _
  | cons b l ih =>
    unfold ordered_insert
    split
    · exact ((List.Perm.cons b ih).trans (List.Perm.swap a b l))
    · exact List.Perm.refl _

/-- The selection permutes the index vector. -/
theorem nth_element_perm (comp : Nat → Nat → Bool) (index : List Nat) :
    (nth_element comp index).Perm index := by
  induction index with
  | nil => exact List.Perm.refl _
  | cons a l ih =>
    show (ordered_insert comp a (nth_element comp l)).Perm (a :: l)
    exact (ordered_insert_perm comp a _).trans (List.Perm.cons a ih)

/-- The selection of the median position finds a record when the index is not
empty and holds positions of the deque only. -/
theorem median_lookup (comp : Nat → Nat → Bool) (records : List time_record) (index : List Nat)
    (hne : index ≠ []) (hidx : ∀ i ∈ index, i < records.length) :
    ∃ i r, (nth_element comp index)[index.length / 2]? = some i ∧ i ∈ index ∧
      records[i]? = some r ∧ r ∈ records := by
  have hp := nth_element_perm comp index
  have hlen : (nth_element comp index).length = index.length := hp.length_eq
  have hpos : 0 < index.length := List.length_pos.mpr hne
  have hlt : index.length / 2 < (nth_element comp index).length := by
    rw [hlen]; exact Nat.div_lt_self hpos (by decide)
  refine ⟨(nth_element comp index)[index.length / 2], ?_⟩
  have hmem : (nth_element comp index)[index.length / 2] ∈ index :=
    hp.subset (List.getElem_mem hlt)
  have hi := hidx _ hmem
  refine ⟨records[(nth_element comp index)[index.length / 2]], ?_, hmem, ?_, List.getElem_mem hi⟩
  · exact List.getElem?_eq_getElem hlt
  · exact List.getElem?_eq_getElem hi

/-! ## Lemmas on the recomputation -/

/-- The result of `update_current_time` on an index vector that is not empty and
holds positions of the deque: the median error is the one of the record at the
position the selection puts in the middle. -/
theorem update_current_time_eq (my : time_keeper_impl) (index : List Nat)
    (hne : index ≠ []) (hidx : ∀ i ∈ index, i < my._records.length) :
    ∃ i r index1, (nth_element (fun a b => decide
          ((record_at my a).time_error_sec < (record_at my b).time_error_sec)) index)[
          index.length / 2]? = some i ∧
      my._records[i]? = some r ∧ r ∈ my._records ∧ index1.Perm index ∧
      update_current_time my index =
        some ({ my with _median_time_error_sec := r.time_error_sec,
                        _cur_time := to_int64 (expected_time my (head_block_num my) + seconds r.time_error_sec) },
              index1) := by
  obtain ⟨i, r, h1, _, h2, h3⟩ := median_lookup
    (fun a b => decide ((record_at my a).time_error_sec < (record_at my b).time_error_sec))
    my._records index hne hidx
  refine ⟨i, r, nth_element
    (fun a b => decide ((record_at my a).time_error_sec < (record_at my b).time_error_sec)) index,
    h1, h2, h3, nth_element_perm _ index, ?_⟩
  simp only [update_current_time, h1, h2]
  rfl

/-- The result of `update_current_difficulty` on an index vector that is not empty
and holds positions of the deque. -/
theorem update_current_difficulty_eq (my : time_keeper_impl) (index : List Nat)
    (hne : index ≠ []) (hidx : ∀ i ∈ index, i < my._records.length) :
    ∃ r index1, r ∈ my._records ∧ index1.Perm index ∧
      update_current_difficulty my index =
        some ({ my with _cur_difficulty := r.block_difficulty }, index1) := by
  obtain ⟨i, r, h1, _, h2, h3⟩ := median_lookup
    (fun a b => decide ((record_at my a).block_difficulty < (record_at my b).block_difficulty))
    my._records index hne hidx
  refine ⟨r, nth_element
    (fun a b => decide ((record_at my a).block_difficulty < (record_at my b).block_difficulty)) index,
    h3, nth_element_perm _ index, ?_⟩
  simp only [update_current_difficulty, h1, h2]

/-- The local `current_interval` is at least 1 after lines 79-82. -/
theorem current_interval_pos (my : time_keeper_impl) : 0 < current_interval my := by
  unfold current_interval
  simp only
  split <;> omega

/-- With an interval that is not zero neither division of lines 95-98 has a zero
divisor. -/
theorem time_error_percent_eq (my : time_keeper_impl) (hint : my._interval_sec ≠ 0) :
    time_error_percent my =
      some (if current_interval my < my._interval_sec then
              Int.tdiv (my._median_time_error_sec * 1000000) (current_interval my)
            else Int.tdiv (my._median_time_error_sec * 1000000) my._interval_sec) := by
  have hpos := current_interval_pos my
  have hne : current_interval my ≠ 0 := by omega
  by_cases h : current_interval my < my._interval_sec
  · simp only [time_error_percent, int64_div, if_pos h, if_neg hne]
  · simp only [time_error_percent, int64_div, if_neg h, if_neg hint]

/-- The recomputation returns for a window that is not empty and an interval
that is not zero; the median time error is the one of the record the selection
puts at the median position and the median difficulty is the one of a retained
record. -/
theorem update_stats_index (my : time_keeper_impl) (hne : my._records ≠ [])
    (hint : my._interval_sec ≠ 0) :
    ∃ i rt rd, (nth_element (fun a b => decide
          ((record_at my a).time_error_sec < (record_at my b).time_error_sec))
          (List.range my._records.length))[my._records.length / 2]? = some i ∧
      my._records[i]? = some rt ∧ rt ∈ my._records ∧ rd ∈ my._records ∧
      update_stats my = some (stats_of my rt.time_error_sec rd.block_difficulty) := by
  have hr : List.range my._records.length ≠ [] := by
    intro h
    have := congrArg List.length h
    simp at this
    exact hne this
  have hidx : ∀ i ∈ List.range my._records.length, i < my._records.length :=
    fun i hi => List.mem_range.mp hi
  obtain ⟨i, rt, index1, hi, hrti, hrt, hperm, h1⟩ := update_current_time_eq my _ hr hidx
  have hne1 : index1 ≠ [] := by
    intro h
    rw [h] at hperm
    exact hr (List.Perm.eq_nil hperm.symm)
  obtain ⟨rd, index2, hrd, _, h2⟩ := update_current_difficulty_eq
    { my with _median_time_error_sec := rt.time_error_sec,
              _cur_time := to_int64 (expected_time my (head_block_num my) + seconds rt.time_error_sec) }
    index1 hne1 (fun i hi => hidx i (hperm.subset hi))
  rw [List.length_range] at hi
  refine ⟨i, rt, rd, hi, hrti, hrt, hrd, ?_⟩
  have h3 := time_error_percent_eq
    { my with _median_time_error_sec := rt.time_error_sec,
              _cur_time := to_int64 (expected_time my (head_block_num my) + seconds rt.time_error_sec),
              _cur_difficulty := rd.block_difficulty } hint
  simp only [update_stats, h1, h2, update_next_difficulty, h3]
  rfl

/-- The recomputation returns for a window that is not empty and an interval
that is not zero; the two medians are values of retained records. -/
theorem update_stats_eq (my : time_keeper_impl) (hne : my._records ≠ [])
    (hint : my._interval_sec ≠ 0) :
    ∃ rt rd, rt ∈ my._records ∧ rd ∈ my._records ∧
      update_stats my = some (stats_of my rt.time_error_sec rd.block_difficulty) := by
  obtain ⟨_, rt, rd, _, _, hrt, hrd, h⟩ := update_stats_index my hne hint
  exact ⟨rt, rd, hrt, hrd, h⟩

/-! ## The frame of the recomputation -/

/-- What `update_current_time` changes: the median time error and the time
estimate, which is the expected time of the last block plus the median error. -/
theorem update_current_time_some (my my1 : time_keeper_impl) (index index1 : List Nat)
    (h : update_current_time my index = some (my1, index1)) :
    my1 = { my with _median_time_error_sec := my1._median_time_error_sec,
                    _cur_time := to_int64 (expected_time my (head_block_num my) +
                      seconds my1._median_time_error_sec) } := by
  unfold update_current_time at h
  simp only at h
  split at h
  · exact Option.noConfusion h
  · split at h
    · exact Option.noConfusion h
    · have h1 := congrArg Prod.fst (Option.some.inj h)
      simp only at h1
      rw [← h1]
      rfl

/-- What `update_current_difficulty` changes: the current difficulty. -/
theorem update_current_difficulty_some (my my1 : time_keeper_impl) (index index1 : List Nat)
    (h : update_current_difficulty my index = some (my1, index1)) :
    my1 = { my with _cur_difficulty := my1._cur_difficulty } := by
  unfold update_current_difficulty at h
  simp only at h
  split at h
  · exact Option.noConfusion h
  · split at h
    · exact Option.noConfusion h
    · have h1 := congrArg Prod.fst (Option.some.inj h)
      simp only at h1
      rw [← h1]

/-- What `update_next_difficulty` changes: the next difficulty. -/
theorem update_next_difficulty_some (my my1 : time_keeper_impl)
    (h : update_next_difficulty my = some my1) :
    my1 = { my with _next_difficulty := my1._next_difficulty } := by
  unfold update_next_difficulty at h
  split at h
  · exact Option.noConfusion h
  · rw [← Option.some.inj h]

/-- What `update_stats` changes: the four statistics; the time estimate it leaves
is the expected time of the last block plus the median error it leaves. -/
theorem update_stats_some (my my1 : time_keeper_impl) (h : update_stats my = some my1) :
    my1 = { my with _median_time_error_sec := my1._median_time_error_sec,
                    _cur_time := to_int64 (expected_time my (head_block_num my) +
                      seconds my1._median_time_error_sec),
                    _cur_difficulty := my1._cur_difficulty,
                    _next_difficulty := my1._next_difficulty } := by
  unfold update_stats at h
  simp only at h
  split at h
  · exact Option.noConfusion h
  · rename_i my2 index2 h2
    split at h
    · exact Option.noConfusion h
    · rename_i my3 index3 h3
      have e2 := update_current_time_some _ _ _ _ h2
      have e3 := update_current_difficulty_some _ _ _ _ h3
      have e4 := update_next_difficulty_some _ _ h
      rw [e4, e3, e2]

/-- The records and the configuration after `update_stats`. -/
theorem update_stats_frame (my my1 : time_keeper_impl) (h : update_stats my = some my1) :
    my1._records = my._records ∧ my1._window = my._window ∧
    my1._origin_time = my._origin_time ∧ my1._interval_sec = my._interval_sec := by
  have e := update_stats_some my my1 h
  rw [e]
  exact ⟨rfl, rfl, rfl, rfl⟩

/-! ## Lemmas on `push` -/

/-- On a deque that is not empty the appended record is the last one, whether the
front is dropped or not. -/
theorem append_record_records (my : time_keeper_impl) (block_num : Nat) (block_time : Int)
    (block_difficulty : Nat) (hne : my._records ≠ []) :
    ∃ l, (append_record my block_num block_time block_difficulty)._records =
      l ++ [time_record.mk4 block_num block_time block_difficulty
              (error_sec my block_num block_time)] := by
  obtain ⟨a, l, hl⟩ := List.exists_cons_of_ne_nil hne
  unfold append_record
  simp only
  split
  · exact ⟨l, by simp [hl]⟩
  · exact ⟨a :: l, by simp [hl]⟩

/-- Appending a record leaves `_interval_sec` as it is. -/
theorem append_record_interval (my : time_keeper_impl) (block_num : Nat) (block_time : Int)
    (block_difficulty : Nat) :
    (append_record my block_num block_time block_difficulty)._interval_sec = my._interval_sec := by
  unfold append_record
  simp only
  split <;> rfl

/-- A push that meets the four preconditions appends the record and recomputes. -/
theorem push_of_preconditions (min_back_sec : Nat) (my : time_keeper_impl) (back : time_record)
    (block_num : Nat) (block_time : Int) (block_difficulty : Nat)
    (hback : my._records.getLast? = some back)
    (hnum : (back.block_num + 1) % 2 ^ 32 = block_num)
    (hdiff : block_difficulty ≥ my._next_difficulty)
    (htime : block_time ≥ to_int64 (my._cur_time - seconds (min_back_sec : Int))) :
    push min_back_sec my block_num block_time block_difficulty =
      match update_stats (append_record my block_num block_time block_difficulty) with
      | none => outcome.undefined
      | some my1 => outcome.returned my1 := by
  simp only [push, hback]
  rw [if_neg (not_not.mpr hnum), if_neg (not_not.mpr hdiff), if_neg (not_not.mpr htime)]

/-- A push that meets the first three preconditions and not the fourth throws. -/
theorem push_refused_time (min_back_sec : Nat) (my : time_keeper_impl) (back : time_record)
    (block_num : Nat) (block_time : Int) (block_difficulty : Nat)
    (hback : my._records.getLast? = some back)
    (hnum : (back.block_num + 1) % 2 ^ 32 = block_num)
    (hdiff : block_difficulty ≥ my._next_difficulty)
    (htime : block_time < to_int64 (my._cur_time - seconds (min_back_sec : Int))) :
    push min_back_sec my block_num block_time block_difficulty =
      outcome.threw fc_assert.block_time my := by
  simp only [push, hback]
  rw [if_neg (not_not.mpr hnum), if_neg (not_not.mpr hdiff), if_pos (not_le.mpr htime)]

/-- A push that meets the four preconditions returns, when the interval is not
zero, with the statistics of the window that ends in the pushed block. -/
theorem push_returned (min_back_sec : Nat) (my : time_keeper_impl) (back : time_record)
    (block_num : Nat) (block_time : Int) (block_difficulty : Nat)
    (hback : my._records.getLast? = some back)
    (hnum : (back.block_num + 1) % 2 ^ 32 = block_num)
    (hdiff : block_difficulty ≥ my._next_difficulty)
    (htime : block_time ≥ to_int64 (my._cur_time - seconds (min_back_sec : Int)))
    (hint : my._interval_sec ≠ 0) :
    ∃ my1, push min_back_sec my block_num block_time block_difficulty = outcome.returned my1 ∧
      head_block_num my1 = block_num ∧
      ∃ rt rd, rt ∈ (append_record my block_num block_time block_difficulty)._records ∧
        rd ∈ (append_record my block_num block_time block_difficulty)._records ∧
        my1 = stats_of (append_record my block_num block_time block_difficulty)
                rt.time_error_sec rd.block_difficulty := by
  have hne : my._records ≠ [] := by
    intro h
    rw [h] at hback
    exact Option.noConfusion hback
  obtain ⟨l, hl⟩ := append_record_records my block_num block_time block_difficulty hne
  have hne1 : (append_record my block_num block_time block_difficulty)._records ≠ [] := by
    rw [hl]; simp
  have hint1 : (append_record my block_num block_time block_difficulty)._interval_sec ≠ 0 := by
    rw [append_record_interval]; exact hint
  obtain ⟨rt, rd, hrt, hrd, hs⟩ := update_stats_eq _ hne1 hint1
  refine ⟨_, ?_, ?_, rt, rd, hrt, hrd, rfl⟩
  · rw [push_of_preconditions min_back_sec my back block_num block_time block_difficulty
      hback hnum hdiff htime, hs]
  · show head_block_num (stats_of _ _ _) = block_num
    unfold head_block_num stats_of
    simp only [hl, List.getLast?_append, List.getLast?_singleton, Option.or_some]
    rfl

/-- With an interval of zero seconds line 98 divides by zero, whatever the median
error: the floored `current_interval` is at least 1, which is not below zero. -/
theorem time_error_percent_zero (my : time_keeper_impl) (h : my._interval_sec = 0) :
    time_error_percent my = none := by
  have hpos := current_interval_pos my
  simp only [time_error_percent, h]
  rw [if_neg (by omega)]
  rfl

/-- With an interval of zero seconds the recomputation does not return. -/
theorem update_stats_zero (my : time_keeper_impl) (h : my._interval_sec = 0) :
    update_stats my = none := by
  cases hs : update_stats my with
  | none => rfl
  | some my1 =>
    exfalso
    unfold update_stats at hs
    simp only at hs
    split at hs
    · exact Option.noConfusion hs
    · rename_i my2 index2 h2
      split at hs
      · exact Option.noConfusion hs
      · rename_i my3 index3 h3
        have e2 := update_current_time_some _ _ _ _ h2
        have e3 := update_current_difficulty_some _ _ _ _ h3
        have hi : my3._interval_sec = 0 := by
          rw [e3, e2]
          exact h
        unfold update_next_difficulty at hs
        rw [time_error_percent_zero my3 hi] at hs
        exact Option.noConfusion hs

/-- A push that meets the four preconditions on a keeper whose interval is zero
seconds does not return: it reaches the division of line 98. -/
theorem push_zero_interval (min_back_sec : Nat) (my : time_keeper_impl) (back : time_record)
    (block_num : Nat) (block_time : Int) (block_difficulty : Nat)
    (hback : my._records.getLast? = some back)
    (hnum : (back.block_num + 1) % 2 ^ 32 = block_num)
    (hdiff : block_difficulty ≥ my._next_difficulty)
    (htime : block_time ≥ to_int64 (my._cur_time - seconds (min_back_sec : Int)))
    (hint : my._interval_sec = 0) :
    push min_back_sec my block_num block_time block_difficulty = outcome.undefined := by
  rw [push_of_preconditions min_back_sec my back block_num block_time block_difficulty
    hback hnum hdiff htime,
    update_stats_zero _ (by rw [append_record_interval]; exact hint)]

/-! ## The preconditions of `push` -/

/-- Counterexample to C1 as stated: the last retained block is block 4294967295,
entered on schedule on a 60 s interval.  The block number 0 is not 4294967295
plus one, yet it is what the 32-bit sum of line 167 gives: `push` of block 0
returns, block 0 is the last retained block and the state is not the one before
the call. -/
theorem push_all_or_nothing_counterexample :
    ∃ my my1, init_stats last_block_keeper = outcome.returned my ∧
      my._records.map time_record.block_num = [4294967295] ∧
      (0 : Nat) ≠ 4294967295 + 1 ∧
      100 ≥ my._next_difficulty ∧
      (257698037700000000 : Int) ≥ to_int64 (my._cur_time - seconds 3600) ∧
      push 3600 my 0 257698037700000000 100 = outcome.returned my1 ∧
      my1._records.map time_record.block_num = [4294967295, 0] ∧ my1 ≠ my :=
  ⟨_, _, rfl, rfl, by decide, by decide, by decide, rfl, by decide, by decide⟩

/-- C1 (amended): `push` is all-or-nothing.  If one of the four preconditions is
violated (no record is retained; `block_num` is not the last retained block
number plus one, the sum taken in 32 bits as line 167 takes it;
`block_difficulty` is below `_next_difficulty`; `block_time` is earlier than
`_cur_time` minus the grace period, be it the difference as line 169 computes it
or the exact difference from a `_cur_time` that is a 64-bit value) then `push`
throws and the object is in the very state it had before the call. -/
theorem push_all_or_nothing (min_back_sec : Nat) (my : time_keeper_impl) (block_num : Nat)
    (block_time : Int) (block_difficulty : Nat)
    (h : my._records = [] ∨ block_num ≠ (head_block_num my + 1) % 2 ^ 32 ∨
      block_difficulty < my._next_difficulty ∨
      block_time < to_int64 (my._cur_time - seconds (min_back_sec : Int)) ∨
      (my._cur_time < 2 ^ 63 ∧ block_time < my._cur_time - (min_back_sec : Int) * 1000000)) :
    ∃ a, push min_back_sec my block_num block_time block_difficulty = outcome.threw a my := by
  unfold push
  cases hback : my._records.getLast? with
  | none => exact ⟨fc_assert.records_size, rfl⟩
  | some back =>
    simp only
    by_cases h1 : (back.block_num + 1) % 2 ^ 32 ≠ block_num
    · exact ⟨fc_assert.block_num, by rw [if_pos h1]⟩
    · rw [if_neg h1]
      by_cases h2 : ¬ (block_difficulty ≥ my._next_difficulty)
      · exact ⟨fc_assert.block_difficulty, by rw [if_pos h2]⟩
      · rw [if_neg h2]
        by_cases h3 : ¬ (block_time ≥ to_int64 (my._cur_time - seconds (min_back_sec : Int)))
        · exact ⟨fc_assert.block_time, by rw [if_pos h3]⟩
        · exfalso
          rcases h with h | h | h | h | ⟨hhi, h⟩
          · rw [h] at hback
            exact Option.noConfusion hback
          · apply h
            unfold head_block_num
            rw [hback]
            exact (not_not.mp h1).symm
          · exact h2 (not_le.mpr h)
          · exact h3 (not_le.mpr h)
          · apply h3
            rw [threshold_eq]
            have hr := to_int64_range (my._cur_time - (min_back_sec : Int) * 1000000)
            rcases Int.lt_or_le block_time (-2 ^ 63) with hb | hb
            · omega
            · rw [to_int64_of_fits _ (by omega) (by omega)]
              exact not_le.mpr h

/-- Witness of C1: block 7 pushed on a keeper whose last block is 5. -/
theorem push_all_or_nothing_witness :
    ∃ a, push 3600 sample_keeper 7 420000000 100 = outcome.threw a sample_keeper :=
  push_all_or_nothing 3600 sample_keeper 7 420000000 100 (Or.inr (Or.inl (by decide)))

/-- C2 (the code on every state; the failing input is the witness): the sequence
guard.  For a state whose last retained record has block number `n`, a push with
a block number other than `n + 1` (the sum in 32 bits) throws and leaves the state
as it was.  On that same state a push with `n + 1`, a difficulty of at least
`_next_difficulty` and a time that passes the test of line 169 returns and makes
`n + 1` the last retained block number when `_interval_sec` is not zero; when
`_interval_sec` is zero it does not return: line 98 divides by zero. -/
theorem sequence_guard (min_back_sec : Nat) (my : time_keeper_impl) (back : time_record)
    (hback : my._records.getLast? = some back) :
    (∀ (block_num : Nat) (block_time : Int) (block_difficulty : Nat),
      block_num ≠ (back.block_num + 1) % 2 ^ 32 →
      push min_back_sec my block_num block_time block_difficulty =
        outcome.threw fc_assert.block_num my) ∧
    (∀ (block_time : Int) (block_difficulty : Nat),
      block_difficulty ≥ my._next_difficulty →
      block_time ≥ to_int64 (my._cur_time - seconds (min_back_sec : Int)) →
      (my._interval_sec ≠ 0 →
        ∃ my1, push min_back_sec my ((back.block_num + 1) % 2 ^ 32) block_time block_difficulty =
            outcome.returned my1 ∧
          head_block_num my1 = (back.block_num + 1) % 2 ^ 32) ∧
      (my._interval_sec = 0 →
        push min_back_sec my ((back.block_num + 1) % 2 ^ 32) block_time block_difficulty =
          outcome.undefined)) := by
  constructor
  · intro block_num block_time block_difficulty hne
    simp only [push, hback]
    rw [if_pos (fun h => hne h.symm)]
  · intro block_time block_difficulty hdiff htime
    constructor
    · intro hint
      obtain ⟨my1, h1, h2, _⟩ := push_returned min_back_sec my back _ block_time
        block_difficulty hback rfl hdiff htime hint
      exact ⟨my1, h1, h2⟩
    · intro hint
      exact push_zero_interval min_back_sec my back _ block_time block_difficulty hback rfl
        hdiff htime hint

/-- Witness of C2, the failing input: the keeper whose last block is 5 is
configured again, with an interval of 999999 microseconds.  Block 7 is refused;
block 6, of sufficient difficulty and inside the grace window, does not return.
On the keeper as it was, with its interval of 60 s, block 6 is accepted. -/
theorem sequence_guard_witness :
    zero_interval_keeper._interval_sec = 0 ∧
    push 3600 zero_interval_keeper 7 420000000 100 =
      outcome.threw fc_assert.block_num zero_interval_keeper ∧
    push 3600 zero_interval_keeper 6 360000000 100 = outcome.undefined ∧
    ∃ my1, push 3600 sample_keeper 6 360000000 100 = outcome.returned my1 ∧
      head_block_num my1 = 6 :=
  ⟨by decide,
   (sequence_guard 3600 zero_interval_keeper
      { block_num := 5, block_time := 300000000, block_difficulty := 100, time_error_sec := 0 }
      rfl).1 7 420000000 100 (by decide),
   ((sequence_guard 3600 zero_interval_keeper
      { block_num := 5, block_time := 300000000, block_difficulty := 100, time_error_sec := 0 }
      rfl).2 360000000 100 (by decide) (by decide)).2 (by decide),
   ((sequence_guard 3600 sample_keeper
      { block_num := 5, block_time := 300000000, block_difficulty := 100, time_error_sec := 0 }
      rfl).2 360000000 100 (by decide) (by decide)).1 (by decide)⟩

/-- C3 (the code on every state; the failing input is the witness): the
difficulty floor.  For a state with a window that is not empty and a block that
is in sequence and passes the test of line 169, `push` throws when
`block_difficulty` is below `_next_difficulty`; when it is equal to
`_next_difficulty` or larger `push` returns if `_interval_sec` is not zero, and
does not return if `_interval_sec` is zero: line 98 divides by zero. -/
theorem difficulty_floor (min_back_sec : Nat) (my : time_keeper_impl) (back : time_record)
    (block_num : Nat) (block_time : Int) (block_difficulty : Nat)
    (hback : my._records.getLast? = some back)
    (hnum : block_num = (back.block_num + 1) % 2 ^ 32)
    (htime : block_time ≥ to_int64 (my._cur_time - seconds (min_back_sec : Int))) :
    (block_difficulty < my._next_difficulty →
      push min_back_sec my block_num block_time block_difficulty =
        outcome.threw fc_assert.block_difficulty my) ∧
    (block_difficulty ≥ my._next_difficulty →
      (my._interval_sec ≠ 0 →
        ∃ my1, push min_back_sec my block_num block_time block_difficulty =
          outcome.returned my1) ∧
      (my._interval_sec = 0 →
        push min_back_sec my block_num block_time block_difficulty = outcome.undefined)) := by
  constructor
  · intro hlt
    simp only [push, hback]
    rw [if_neg (not_not.mpr hnum.symm), if_pos (not_le.mpr hlt)]
  · intro hdiff
    constructor
    · intro hint
      obtain ⟨my1, h1, _⟩ := push_returned min_back_sec my back block_num block_time
        block_difficulty hback hnum.symm hdiff htime hint
      exact ⟨my1, h1⟩
    · intro hint
      exact push_zero_interval min_back_sec my back block_num block_time block_difficulty
        hback hnum.symm hdiff htime hint

/-- Witness of C3, the failing input: the keeper whose last block is 5 and whose
`_next_difficulty` is 100 is configured again, with an interval of 999999
microseconds.  Block 6 with difficulty 99 is refused; block 6 with difficulty 100
does not return.  On the keeper as it was, with its interval of 60 s, difficulty
100 is accepted. -/
theorem difficulty_floor_witness :
    zero_interval_keeper._interval_sec = 0 ∧ zero_interval_keeper._next_difficulty = 100 ∧
    push 3600 zero_interval_keeper 6 360000000 99 =
      outcome.threw fc_assert.block_difficulty zero_interval_keeper ∧
    push 3600 zero_interval_keeper 6 360000000 100 = outcome.undefined ∧
    ∃ my1, push 3600 sample_keeper 6 360000000 100 = outcome.returned my1 :=
  ⟨by decide, by decide,
   (difficulty_floor 3600 zero_interval_keeper
      { block_num := 5, block_time := 300000000, block_difficulty := 100, time_error_sec := 0 }
      6 360000000 99 rfl (by decide) (by decide)).1 (by decide),
   ((difficulty_floor 3600 zero_interval_keeper
      { block_num := 5, block_time := 300000000, block_difficulty := 100, time_error_sec := 0 }
      6 360000000 100 rfl (by decide) (by decide)).2 (by decide)).2 (by decide),
   ((difficulty_floor 3600 sample_keeper
      { block_num := 5, block_time := 300000000, block_difficulty := 100, time_error_sec := 0 }
      6 360000000 100 rfl (by decide) (by decide)).2 (by decide)).1 (by decide)⟩

/-- C4 (the code on every state; the failing input is the witness): the boundary
of the grace window.  For a state with a window that is not empty and a block
that is in sequence and of sufficient difficulty, `push` throws when `block_time`
is one second earlier than `_cur_time` minus the grace period (the threshold of
line 169); when `block_time` is that threshold exactly `push` returns if
`_interval_sec` is not zero, and does not return if `_interval_sec` is zero: line
98 divides by zero. -/
theorem grace_window_boundary (min_back_sec : Nat) (my : time_keeper_impl) (back : time_record)
    (block_num : Nat) (block_difficulty : Nat)
    (hback : my._records.getLast? = some back)
    (hnum : block_num = (back.block_num + 1) % 2 ^ 32)
    (hdiff : block_difficulty ≥ my._next_difficulty) :
    (my._interval_sec ≠ 0 →
      ∃ my1, push min_back_sec my block_num
        (to_int64 (my._cur_time - seconds (min_back_sec : Int))) block_difficulty =
          outcome.returned my1) ∧
    (my._interval_sec = 0 →
      push min_back_sec my block_num
        (to_int64 (my._cur_time - seconds (min_back_sec : Int))) block_difficulty =
          outcome.undefined) ∧
    push min_back_sec my block_num
        (to_int64 (my._cur_time - seconds (min_back_sec : Int)) - 1000000) block_difficulty =
      outcome.threw fc_assert.block_time my := by
  refine ⟨fun hint => ?_, fun hint => ?_, ?_⟩
  · obtain ⟨my1, h1, _⟩ := push_returned min_back_sec my back block_num
      (to_int64 (my._cur_time - seconds (min_back_sec : Int))) block_difficulty hback hnum.symm
      hdiff (le_refl _) hint
    exact ⟨my1, h1⟩
  · exact push_zero_interval min_back_sec my back block_num _ block_difficulty hback hnum.symm
      hdiff (le_refl _) hint
  · have hlt : ¬ (to_int64 (my._cur_time - seconds (min_back_sec : Int)) - 1000000 ≥
        to_int64 (my._cur_time - seconds (min_back_sec : Int))) := by
      omega
    simp only [push, hback]
    rw [if_neg (not_not.mpr hnum.symm), if_neg (not_not.mpr hdiff), if_pos hlt]

/-- Witness of C4, the failing input: the keeper whose last block is 5 and whose
`_cur_time` is 300 s is configured again, with an interval of 999999
microseconds; the grace period is one hour.  Block 6 timed at -3300 s, the
threshold, does not return; timed at -3301 s it is refused.  On the keeper as it
was, with its interval of 60 s, the block timed at -3300 s is accepted. -/
theorem grace_window_boundary_witness :
    zero_interval_keeper._interval_sec = 0 ∧
    to_int64 (zero_interval_keeper._cur_time - seconds (3600 : Nat)) = -3300000000 ∧
    push 3600 zero_interval_keeper 6
      (to_int64 (zero_interval_keeper._cur_time - seconds (3600 : Nat))) 100 =
        outcome.undefined ∧
    push 3600 zero_interval_keeper 6
      (to_int64 (zero_interval_keeper._cur_time - seconds (3600 : Nat)) - 1000000) 100 =
        outcome.threw fc_assert.block_time zero_interval_keeper ∧
    ∃ my1, push 3600 sample_keeper 6
      (to_int64 (sample_keeper._cur_time - seconds (3600 : Nat))) 100 = outcome.returned my1 :=
  ⟨by decide, by decide,
   (grace_window_boundary 3600 zero_interval_keeper
      { block_num := 5, block_time := 300000000, block_difficulty := 100, time_error_sec := 0 }
      6 100 rfl (by decide) (by decide)).2.1 (by decide),
   (grace_window_boundary 3600 zero_interval_keeper
      { block_num := 5, block_time := 300000000, block_difficulty := 100, time_error_sec := 0 }
      6 100 rfl (by decide) (by decide)).2.2,
   (grace_window_boundary 3600 sample_keeper
      { block_num := 5, block_time := 300000000, block_difficulty := 100, time_error_sec := 0 }
      6 100 rfl (by decide) (by decide)).1 (by decide)⟩

/-! ## The next difficulty -/

/-- C5 (the code at a failing input): block 1 is entered 30 s late on a 60 s
interval.  The recomputation finds the median error 30 and takes the branch that
divides by the target interval; the ratio it computes is `30 * 1000000 / 60`,
that is 500000, where the claim has `30 * 10000000 / 60`, that is 5000000; the
next difficulty is 950 out of 1000. -/
theorem time_error_percent_scale :
    ∃ my, init_stats (late_keeper 30 1000) = outcome.returned my ∧
      my._median_time_error_sec = 30 ∧ my._interval_sec = 60 ∧
      ¬ (current_interval my < my._interval_sec) ∧
      time_error_percent my = some 500000 ∧
      int64_div (my._median_time_error_sec * 10000000) my._interval_sec = some 5000000 ∧
      my._cur_difficulty = 1000 ∧ my._next_difficulty = 950 :=
  ⟨_, rfl, by decide⟩

/-- Counterexample to C6 as stated: with `_cur_difficulty = 2 ^ 63` and a ratio of
zero the stored next difficulty is 0, while the quotient of the product by
10000000 is `2 ^ 63`. -/
theorem next_difficulty_exact_counterexample :
    time_error_percent { sample_keeper with _cur_difficulty := 2 ^ 63 } = some 0 ∧
    clamp_time_error_percent 0 = 0 ∧
    (update_next_difficulty { sample_keeper with _cur_difficulty := 2 ^ 63 }).map
      time_keeper_impl._next_difficulty = some 0 ∧
    (2 ^ 63 : Int) * (10000000 - 0) / 10000000 = 2 ^ 63 := by
  decide

/-- The clamped ratio is at most 10000000. -/
theorem clamp_time_error_percent_le (p : Int) : clamp_time_error_percent p ≤ 10000000 := by
  unfold clamp_time_error_percent
  split <;> omega

/-- The product of lines 107-108 when it fits 64 bits. -/
theorem scale_difficulty_of_fit (c : Nat) (r : Int) (hr : r ≤ 10000000)
    (hfit : (c : Int) * (10000000 - r) < 2 ^ 64) :
    (scale_difficulty c r : Int) = (c : Int) * (10000000 - r) / 10000000 := by
  obtain ⟨n, hn⟩ := Int.eq_ofNat_of_zero_le (show (0 : Int) ≤ 10000000 - r by omega)
  unfold scale_difficulty
  rw [hn] at hfit ⊢
  have hfit1 : c * n < 2 ^ 64 := by exact_mod_cast hfit
  have h1 : to_uint64 (n : Int) = n % 2 ^ 64 := by
    unfold to_uint64
    have : ((n : Int) % 2 ^ 64) = ((n % 2 ^ 64 : Nat) : Int) := by push_cast; rfl
    rw [this, Int.toNat_ofNat]
  simp only [h1, Nat.mul_mod_mod, Nat.mod_eq_of_lt hfit1]
  push_cast
  rfl

/-- C6 (amended): the next difficulty is exact when the product fits 64 bits.  For
every `_cur_difficulty` and every ratio the recomputation produces (the clamped
`time_error_percent`) such that `_cur_difficulty * (10000000 - ratio)` is below
`2 ^ 64`, `update_next_difficulty` returns and stores the quotient, rounded down,
of that product by 10000000. -/
theorem next_difficulty_exact (my : time_keeper_impl) (p : Int)
    (hp : time_error_percent my = some p)
    (hfit : (my._cur_difficulty : Int) * (10000000 - clamp_time_error_percent p) < 2 ^ 64) :
    ∃ my1, update_next_difficulty my = some my1 ∧
      (my1._next_difficulty : Int) =
        (my._cur_difficulty : Int) * (10000000 - clamp_time_error_percent p) / 10000000 := by
  refine ⟨{ my with _next_difficulty :=
    scale_difficulty my._cur_difficulty (clamp_time_error_percent p) },
    by simp only [update_next_difficulty, hp], ?_⟩
  exact scale_difficulty_of_fit _ _ (clamp_time_error_percent_le p) hfit

/-- Witness of C6: difficulty 1000 and the ratio 500000 of a median error of 30 s
on a 60 s interval give 950. -/
theorem next_difficulty_exact_witness :
    ∃ my1, update_next_difficulty
        { sample_keeper with _cur_difficulty := 1000, _median_time_error_sec := 30 } = some my1 ∧
      (my1._next_difficulty : Int) =
        ((1000 : Nat) : Int) * (10000000 - clamp_time_error_percent 500000) / 10000000 :=
  next_difficulty_exact
    { sample_keeper with _cur_difficulty := 1000, _median_time_error_sec := 30 } 500000
    (by decide) (by decide)

/-- C7 (the code at a failing input): block 1 is entered 600 s late on a 60 s
interval.  The ratio is `600 * 1000000 / 60`, that is 10000000; the test
`time_error_percent > 10000000` does not hold for it, so it is applied as it is,
the multiplier `10000000 - ratio` is zero and the next difficulty is 0 out of
1000. -/
theorem clamp_misses_ten_million :
    ∃ my, init_stats (late_keeper 600 1000) = outcome.returned my ∧
      time_error_percent my = some 10000000 ∧
      clamp_time_error_percent 10000000 = 10000000 ∧
      ¬ (clamp_time_error_percent 10000000 ≤ 9999999) ∧
      my._cur_difficulty = 1000 ∧ my._next_difficulty = 0 :=
  ⟨_, rfl, by decide⟩

/-! ## The direction of the adjustment -/

/-- Truncating division of a numerator that is not negative by a positive divisor. -/
theorem tdiv_of_nonneg (a d : Int) (ha : 0 ≤ a) (hd : 0 < d) :
    0 ≤ a.tdiv d ∧ a.tdiv d ≤ a ∧ (d ≤ a → 1 ≤ a.tdiv d) := by
  rw [Int.tdiv_eq_ediv ha (le_of_lt hd)]
  refine ⟨Int.ediv_nonneg ha (le_of_lt hd), Int.ediv_le_self d ha, fun h => ?_⟩
  exact Int.le_ediv_of_mul_le hd (by omega)

/-- Truncating division of a numerator that is not positive by a positive divisor. -/
theorem tdiv_of_nonpos (a d : Int) (ha : a ≤ 0) (hd : 0 < d) :
    a.tdiv d ≤ 0 ∧ a ≤ a.tdiv d := by
  obtain ⟨h1, h2, _⟩ := tdiv_of_nonneg (-a) d (by omega) hd
  have h3 : a.tdiv d = -((-a).tdiv d) := by rw [Int.neg_tdiv, neg_neg]
  rw [h3]
  constructor <;> omega

/-- With a ratio between 0 and 10000000 the scaled difficulty is not above the
difficulty; this holds with the 64-bit reduction too. -/
theorem scale_difficulty_le (c : Nat) (r : Int) (h0 : 0 ≤ r) (h1 : r ≤ 10000000) :
    scale_difficulty c r ≤ c := by
  obtain ⟨n, hn⟩ := Int.eq_ofNat_of_zero_le (show (0 : Int) ≤ 10000000 - r by omega)
  have hn1 : n ≤ 10000000 := by omega
  have h2 : to_uint64 (10000000 - r) = n := by
    unfold to_uint64
    rw [hn]
    have : ((n : Int) % 2 ^ 64) = ((n % 2 ^ 64 : Nat) : Int) := by push_cast; rfl
    rw [this, Int.toNat_ofNat]
    exact Nat.mod_eq_of_lt (by omega)
  unfold scale_difficulty
  simp only [h2]
  apply Nat.div_le_of_le_mul
  calc c * n % 2 ^ 64 ≤ c * n := Nat.mod_le _ _
    _ ≤ c * 10000000 := Nat.mul_le_mul_left c hn1
    _ = 10000000 * c := Nat.mul_comm _ _

/-- With a ratio between 1 and 10000000 the scaled difficulty is below a
difficulty that is not zero. -/
theorem scale_difficulty_lt (c : Nat) (r : Int) (h0 : 1 ≤ r) (h1 : r ≤ 10000000) (hc : 0 < c) :
    scale_difficulty c r < c := by
  obtain ⟨n, hn⟩ := Int.eq_ofNat_of_zero_le (show (0 : Int) ≤ 10000000 - r by omega)
  have hn1 : n < 10000000 := by omega
  have h2 : to_uint64 (10000000 - r) = n := by
    unfold to_uint64
    rw [hn]
    have : ((n : Int) % 2 ^ 64) = ((n % 2 ^ 64 : Nat) : Int) := by push_cast; rfl
    rw [this, Int.toNat_ofNat]
    exact Nat.mod_eq_of_lt (by omega)
  unfold scale_difficulty
  simp only [h2]
  apply Nat.div_lt_of_lt_mul
  calc c * n % 2 ^ 64 ≤ c * n := Nat.mod_le _ _
    _ < c * 10000000 := Nat.mul_lt_mul_of_pos_left hn1 hc
    _ = 10000000 * c := Nat.mul_comm _ _

/-- With a ratio that is zero or negative and a product that fits 64 bits the
scaled difficulty is not below the difficulty, and it is above it when
`c * (-r)` reaches 10000000. -/
theorem scale_difficulty_ge (c : Nat) (r : Int) (h0 : r ≤ 0)
    (hfit : (c : Int) * (10000000 - r) < 2 ^ 64) :
    c ≤ scale_difficulty c r ∧ (10000000 ≤ (c : Int) * (-r) → c < scale_difficulty c r) := by
  have h := scale_difficulty_of_fit c r (by omega) hfit
  have hmul : (c : Int) * (10000000 - r) = (c : Int) * 10000000 + (c : Int) * (-r) := by ring
  have hnn : 0 ≤ (c : Int) * (-r) := Int.mul_nonneg (Int.ofNat_nonneg c) (by omega)
  constructor
  · have : (c : Int) ≤ (scale_difficulty c r : Int) := by
      rw [h]
      exact Int.le_ediv_of_mul_le (by decide) (by omega)
    exact_mod_cast this
  · intro hbig
    have : (c : Int) + 1 ≤ (scale_difficulty c r : Int) := by
      rw [h]
      exact Int.le_ediv_of_mul_le (by decide) (by omega)
    omega

/-- Lines 107-109 with a ratio of zero. -/
theorem scale_difficulty_zero (c : Nat) :
    scale_difficulty c 0 = c * 10000000 % 2 ^ 64 / 10000000 := by
  have h : to_uint64 (10000000 - 0) = 10000000 := by decide
  unfold scale_difficulty
  rw [h]

/-- The next difficulty for a ratio of zero is not above the difficulty. -/
theorem wrapped_quotient_le (c : Nat) : c * 10000000 % 2 ^ 64 / 10000000 ≤ c := by
  apply Nat.div_le_of_le_mul
  calc c * 10000000 % 2 ^ 64 ≤ c * 10000000 := Nat.mod_le _ _
    _ = 10000000 * c := Nat.mul_comm _ _

/-- The next difficulty for a ratio of zero is the difficulty when the product
fits 64 bits. -/
theorem wrapped_quotient_of_fit (c : Nat) (hfit : c * 10000000 < 2 ^ 64) :
    c * 10000000 % 2 ^ 64 / 10000000 = c := by
  rw [Nat.mod_eq_of_lt hfit]
  exact Nat.mul_div_cancel c (by decide)

/-- With a ratio that is zero or negative and a product that fits 64 bits, the
scaled difficulty is above the difficulty only if `c * (-r)` reaches 10000000. -/
theorem scale_difficulty_gt_only (c : Nat) (r : Int) (h0 : r ≤ 0)
    (hfit : (c : Int) * (10000000 - r) < 2 ^ 64) (hlt : c < scale_difficulty c r) :
    10000000 ≤ (c : Int) * (-r) := by
  have h := scale_difficulty_of_fit c r (by omega) hfit
  have hmul : (c : Int) * (10000000 - r) = (c : Int) * 10000000 + (c : Int) * (-r) := by ring
  have h1 : (c : Int) + 1 ≤ (c : Int) * (10000000 - r) / 10000000 := by
    rw [← h]
    omega
  have h2 := (Int.le_ediv_iff_mul_le (by decide : (0 : Int) < 10000000)).mp h1
  omega

/-- The ratio of the recomputation on a window whose median time error is
`median`, on an interval that is not zero: lines 95-98 return it, lines 107-109
apply it clamped, and on a positive interval it has the sign of the median. -/
theorem stats_of_ratio (my : time_keeper_impl) (median : Int) (difficulty : Nat)
    (hint : my._interval_sec ≠ 0) :
    ∃ p, time_error_percent (stats_of my median difficulty) = some p ∧
      (stats_of my median difficulty)._next_difficulty =
        scale_difficulty difficulty (clamp_time_error_percent p) ∧
      (0 < my._interval_sec → 0 < median → 0 ≤ p) ∧
      (0 < my._interval_sec → median < 0 → p ≤ 0) := by
  have hp := time_error_percent_eq (stats_of my median difficulty) hint
  have hcpos := current_interval_pos (stats_of my median difficulty)
  have hm : (stats_of my median difficulty)._median_time_error_sec = median := rfl
  have hi : (stats_of my median difficulty)._interval_sec = my._interval_sec := rfl
  rw [hm, hi] at hp
  refine ⟨_, hp, rfl, fun hpos hmed => ?_, fun hpos hmed => ?_⟩
  · split
    · exact (tdiv_of_nonneg _ _ (by omega) hcpos).1
    · exact (tdiv_of_nonneg _ _ (by omega) hpos).1
  · split
    · exact (tdiv_of_nonpos _ _ (by omega) hcpos).1
    · exact (tdiv_of_nonpos _ _ (by omega) hpos).1

/-- Counterexample to C8 as stated.  (1) The single retained block is one second
early, the interval is 60 s and the difficulty 100: the ratio is -16949 and the
next difficulty is 100, which is not above the current one.  (2) The single
retained block is 30 s late and the difficulty is zero: the next difficulty is
not below the current one.  (3) The single retained block is one second late on
an interval of 2000000 s and the difficulty is 1000: the ratio is 0 and the next
difficulty is 1000.  (4) The single retained block is 30 s early and the
difficulty is `2 ^ 63`: the 64-bit product wraps and the next difficulty is 0.
(5) The interval is -60 s and the single retained block is 30 s late, with
difficulty 1000: the ratio is -500000 and the next difficulty is 1050, which is
above the current one. -/
theorem difficulty_direction_counterexample :
    (∃ my1, init_stats (late_keeper (-1) 100) = outcome.returned my1 ∧
      my1._records ≠ [] ∧ (∀ r ∈ my1._records, r.time_error_sec < 0) ∧
      time_error_percent my1 = some (-16949) ∧
      my1._cur_difficulty = 100 ∧ my1._next_difficulty = 100 ∧
      ¬ (my1._cur_difficulty < my1._next_difficulty)) ∧
    (∃ my1, init_stats (late_keeper 30 0) = outcome.returned my1 ∧
      my1._records ≠ [] ∧ (∀ r ∈ my1._records, 0 < r.time_error_sec) ∧
      my1._cur_difficulty = 0 ∧ my1._next_difficulty = 0 ∧
      ¬ (my1._next_difficulty < my1._cur_difficulty)) ∧
    (∃ my1, init_stats (push_init (configure (time_keeper_new 0 0) 0 2000000000000 1) 1
        2000001000000 1000) = outcome.returned my1 ∧
      my1._records ≠ [] ∧ (∀ r ∈ my1._records, 0 < r.time_error_sec) ∧
      time_error_percent my1 = some 0 ∧
      my1._cur_difficulty = 1000 ∧ my1._next_difficulty = 1000 ∧
      ¬ (my1._next_difficulty < my1._cur_difficulty)) ∧
    (∃ my1, init_stats (late_keeper (-30) (2 ^ 63)) = outcome.returned my1 ∧
      my1._records ≠ [] ∧ (∀ r ∈ my1._records, r.time_error_sec < 0) ∧
      my1._cur_difficulty = 2 ^ 63 ∧ my1._next_difficulty = 0 ∧
      ¬ (my1._cur_difficulty < my1._next_difficulty)) ∧
    (∃ my1, init_stats (push_init (configure (time_keeper_new 0 0) 0 (-60000000) 1) 1
        (-30000000) 1000) = outcome.returned my1 ∧
      my1._interval_sec = -60 ∧
      my1._records ≠ [] ∧ (∀ r ∈ my1._records, 0 < r.time_error_sec) ∧
      time_error_percent my1 = some (-500000) ∧
      my1._cur_difficulty = 1000 ∧ my1._next_difficulty = 1050 ∧
      ¬ (my1._next_difficulty < my1._cur_difficulty)) :=
  ⟨⟨_, rfl, by decide⟩, ⟨_, rfl, by decide⟩, ⟨_, rfl, by decide⟩, ⟨_, rfl, by decide⟩,
   ⟨_, rfl, by decide⟩⟩

/-- C8 (amended): direction of the adjustment.  For every window that is not
empty, on an interval that is not negative: the recomputation returns when the
interval is positive, and every state it leaves, with `ratio` the clamped
`time_error_percent` it applied, is such that (1) if every retained time error
is positive the next difficulty is not above the current one, and is below it
when the current difficulty is not zero and `ratio` is at least 1, and only then
when `_cur_difficulty * 10000000` is below `2 ^ 64`; (2) if every retained time
error is negative and `_cur_difficulty * (10000000 - ratio)` is below `2 ^ 64`
the next difficulty is not below the current one, and is above it exactly when
`_cur_difficulty * (-ratio)` reaches 10000000. -/
theorem difficulty_direction (my : time_keeper_impl) (hne : my._records ≠ [])
    (hint : 0 ≤ my._interval_sec) :
    (0 < my._interval_sec → ∃ my1, update_stats my = some my1) ∧
    ∀ my1, update_stats my = some my1 →
      ∃ p, time_error_percent my1 = some p ∧
        ((∀ r ∈ my._records, 0 < r.time_error_sec) →
          my1._next_difficulty ≤ my1._cur_difficulty ∧
          (0 < my1._cur_difficulty → 1 ≤ clamp_time_error_percent p →
            my1._next_difficulty < my1._cur_difficulty) ∧
          (my1._cur_difficulty * 10000000 < 2 ^ 64 →
            my1._next_difficulty < my1._cur_difficulty →
            0 < my1._cur_difficulty ∧ 1 ≤ clamp_time_error_percent p)) ∧
        ((∀ r ∈ my._records, r.time_error_sec < 0) →
          (my1._cur_difficulty : Int) * (10000000 - clamp_time_error_percent p) < 2 ^ 64 →
          my1._cur_difficulty ≤ my1._next_difficulty ∧
          (my1._cur_difficulty < my1._next_difficulty ↔
            10000000 ≤ (my1._cur_difficulty : Int) * (-clamp_time_error_percent p))) := by
  refine ⟨fun hpos => ?_, fun my1 h1 => ?_⟩
  · obtain ⟨rt, rd, _, _, hs⟩ := update_stats_eq my hne (ne_of_gt hpos)
    exact ⟨_, hs⟩
  · have hne0 : my._interval_sec ≠ 0 := by
      intro h0
      rw [update_stats_zero my h0] at h1
      exact Option.noConfusion h1
    have hpos : 0 < my._interval_sec := by omega
    obtain ⟨rt, rd, hrt, _, hs⟩ := update_stats_eq my hne hne0
    rw [hs] at h1
    have e := Option.some.inj h1
    subst e
    obtain ⟨p, hp, hnext, hsl, hfa⟩ :=
      stats_of_ratio my rt.time_error_sec rd.block_difficulty hne0
    have hcur : (stats_of my rt.time_error_sec rd.block_difficulty)._cur_difficulty =
        rd.block_difficulty := rfl
    have hc1 := clamp_time_error_percent_le p
    refine ⟨p, hp, fun hall => ?_, fun hall hfit => ?_⟩
    · have h0 := hsl hpos (hall rt hrt)
      have hc0 : 0 ≤ clamp_time_error_percent p := by
        unfold clamp_time_error_percent
        split <;> omega
      rw [hnext, hcur]
      refine ⟨scale_difficulty_le _ _ hc0 hc1, fun hd hr => scale_difficulty_lt _ _ hr hc1 hd,
        fun hfit hlt => ⟨by omega, ?_⟩⟩
      by_contra hr
      have hz : clamp_time_error_percent p = 0 := by omega
      rw [hz, scale_difficulty_zero, wrapped_quotient_of_fit _ hfit] at hlt
      exact Nat.lt_irrefl _ hlt
    · have hp0 := hfa hpos (hall rt hrt)
      have hcl : clamp_time_error_percent p = p := by
        unfold clamp_time_error_percent
        rw [if_neg (by omega)]
      rw [hcur, hcl] at hfit
      rw [hnext, hcur, hcl]
      obtain ⟨hge, hgt⟩ := scale_difficulty_ge _ _ hp0 hfit
      exact ⟨hge, fun hlt => scale_difficulty_gt_only _ _ hp0 hfit hlt, hgt⟩

/-- Witness of C8: one block 30 s late on a 60 s interval, with difficulty 1000;
the ratio is 500000 and the next difficulty, 950, is below the current one. -/
theorem difficulty_direction_witness :
    ∃ my1, update_stats (late_keeper 30 1000) = some my1 ∧
      my1._next_difficulty < my1._cur_difficulty := by
  obtain ⟨hret, hdir⟩ := difficulty_direction (late_keeper 30 1000) (by decide) (by decide)
  obtain ⟨my1, h⟩ := hret (by decide)
  obtain ⟨p, hp, hslow, _⟩ := hdir my1 h
  have hr : update_stats (late_keeper 30 1000) = some
      (stats_of (late_keeper 30 1000) 30 1000) := by decide
  have e : stats_of (late_keeper 30 1000) 30 1000 = my1 := Option.some.inj (hr.symm.trans h)
  subst e
  have hp5 : time_error_percent (stats_of (late_keeper 30 1000) 30 1000) = some 500000 := by
    decide
  have hpe : p = 500000 := (Option.some.inj (hp.symm.trans hp5))
  subst hpe
  exact ⟨_, hr, (hslow (by decide)).2.1 (by decide) (by decide)⟩

/-! ## The scenario -/

/-- The error 0 in 32 bits. -/
theorem to_int32_zero : to_int32 0 = 0 := by decide

/-- The error 120 in 32 bits. -/
theorem to_int32_late : to_int32 120 = 120 := by decide

/-- The difference 0 in 64 bits. -/
theorem to_int64_zero : to_int64 0 = 0 := by decide

/-- The interval of 60 s in seconds. -/
theorem interval_sec_of_minute : Int.tdiv 60000000 1000000 = 60 := by decide

/-- The error of 120 s in seconds. -/
theorem error_sec_of_late : Int.tdiv 120000000 1000000 = 120 := by decide

/-- The expected time is a value of `int64_t`. -/
theorem to_int64_expected_time (my : time_keeper_impl) (n : Nat) :
    to_int64 (expected_time my n) = expected_time my n := by
  have h := to_int64_range (my._origin_time +
    seconds (to_int64 ((n : Int) * my._interval_sec)))
  exact to_int64_of_fits _ h.1 h.2

/-- The state of the scenario before `init_stats`, written out: the expected time
of block `n` is `origin_time + n * 60000000` in 64 bits. -/
theorem on_schedule_keeper_eq (origin_time : Int) (d0 d1 difficulty : Nat) :
    on_schedule_keeper origin_time d0 d1 difficulty =
      { _origin_time := origin_time, _block_interval := 60000000, _window := 5,
        _cur_difficulty := d0, _next_difficulty := d1, _cur_time := 0,
        _records :=
          [{ block_num := 1, block_time := to_int64 (origin_time + 60000000),
             block_difficulty := difficulty, time_error_sec := 0 },
           { block_num := 2, block_time := to_int64 (origin_time + 120000000),
             block_difficulty := difficulty, time_error_sec := 0 },
           { block_num := 3, block_time := to_int64 (origin_time + 180000000),
             block_difficulty := difficulty, time_error_sec := 0 },
           { block_num := 4, block_time := to_int64 (origin_time + 240000000),
             block_difficulty := difficulty, time_error_sec := 0 },
           { block_num := 5, block_time := to_int64 (origin_time + 300000000),
             block_difficulty := difficulty, time_error_sec := 0 }],
        _interval_sec := 60, _median_time_error_sec := 0 } := by
  simp [on_schedule_keeper, configure, time_keeper_new, push_init, append_record,
    error_sec, expected_time_eq, time_record.mk4, to_int32_zero, to_int64_zero,
    interval_sec_of_minute]

/-- The statistics of a window whose median time error is zero. -/
theorem stats_of_zero (my : time_keeper_impl) (difficulty : Nat) :
    stats_of my 0 difficulty =
      { my with _median_time_error_sec := 0,
                _cur_time := expected_time my (head_block_num my),
                _cur_difficulty := difficulty,
                _next_difficulty := difficulty * 10000000 % 2 ^ 64 / 10000000 } := by
  have h0 : clamp_time_error_percent 0 = 0 := by decide
  have hs : seconds 0 = 0 := by decide
  unfold stats_of
  simp only [zero_mul, Int.zero_tdiv, ite_self, h0, scale_difficulty_zero, hs, add_zero,
    to_int64_expected_time]

/-- The last block of the scenario is block 5. -/
theorem on_schedule_head (origin_time : Int) (d0 d1 difficulty : Nat) :
    head_block_num (on_schedule_keeper origin_time d0 d1 difficulty) = 5 := by
  rw [on_schedule_keeper_eq]
  rfl

/-- The expected times of the scenario. -/
theorem on_schedule_expected_time (origin_time : Int) (d0 d1 difficulty : Nat) (n : Nat) :
    expected_time (on_schedule_keeper origin_time d0 d1 difficulty) n =
      to_int64 (origin_time + (n : Int) * 60000000) := by
  rw [on_schedule_keeper_eq, expected_time_eq]
  show to_int64 (origin_time + (n : Int) * 60 * 1000000) = _
  rw [show origin_time + (n : Int) * 60 * 1000000 = origin_time + (n : Int) * 60000000 by omega]

/-- The statistics `init_stats` computes for the scenario. -/
theorem stats_on_schedule (origin_time : Int) (d0 d1 difficulty : Nat) :
    init_stats (on_schedule_keeper origin_time d0 d1 difficulty) =
      outcome.returned { on_schedule_keeper origin_time d0 d1 difficulty with
        _median_time_error_sec := 0,
        _cur_time := to_int64 (origin_time + 300000000),
        _cur_difficulty := difficulty,
        _next_difficulty := difficulty * 10000000 % 2 ^ 64 / 10000000 } := by
  have hne : (on_schedule_keeper origin_time d0 d1 difficulty)._records ≠ [] := by
    rw [on_schedule_keeper_eq]; simp
  have hint : 0 < (on_schedule_keeper origin_time d0 d1 difficulty)._interval_sec := by
    rw [on_schedule_keeper_eq]; exact (by decide : (0 : Int) < 60)
  obtain ⟨rt, rd, hrt, hrd, hs⟩ := update_stats_eq
    (on_schedule_keeper origin_time d0 d1 difficulty) hne (ne_of_gt hint)
  have ht : rt.time_error_sec = 0 := by
    rw [on_schedule_keeper_eq] at hrt
    simp only [List.mem_cons, List.mem_singleton, List.not_mem_nil, or_false] at hrt
    rcases hrt with h | h | h | h | h <;> rw [h]
  have hd : rd.block_difficulty = difficulty := by
    rw [on_schedule_keeper_eq] at hrd
    simp only [List.mem_cons, List.mem_singleton, List.not_mem_nil, or_false] at hrd
    rcases hrd with h | h | h | h | h <;> rw [h]
  have he : expected_time (on_schedule_keeper origin_time d0 d1 difficulty) 5 =
      to_int64 (origin_time + 300000000) := by
    rw [on_schedule_expected_time]
    norm_num
  simp only [init_stats, hs]
  rw [ht, hd, stats_of_zero, on_schedule_head, he]

/-- Counterexample to C9 as stated: with `D = 2 ^ 63` the five blocks on schedule
give the current difficulty `2 ^ 63` and the next difficulty 0. -/
theorem on_schedule_fixpoint_counterexample :
    ∃ my, init_stats (on_schedule_keeper 0 0 0 (2 ^ 63)) = outcome.returned my ∧
      my._cur_difficulty = 2 ^ 63 ∧ my._median_time_error_sec = 0 ∧
      my._next_difficulty = 0 ∧ my._next_difficulty ≠ 2 ^ 63 :=
  ⟨_, rfl, by decide⟩

/-- C9 (amended): the fixpoint on schedule.  For every difficulty `D`, every origin
time and whatever the two difficulties hold after construction: after
`configure` with an interval of 60 s and a window of 5, `push_init` of blocks 1
to 5, each at `expected_time` of its number and with difficulty `D`, and
`init_stats`, the statistics are `_cur_difficulty = D` and
`_median_time_error_sec = 0`, and `_next_difficulty = D` when `D * 10000000` is
below `2 ^ 64`. -/
theorem on_schedule_fixpoint (origin_time : Int) (d0 d1 D : Nat) :
    ∃ my, init_stats (on_schedule_keeper origin_time d0 d1 D) = outcome.returned my ∧
      my._cur_difficulty = D ∧ my._median_time_error_sec = 0 ∧
      (D * 10000000 < 2 ^ 64 → my._next_difficulty = D) :=
  ⟨_, stats_on_schedule origin_time d0 d1 D, rfl, rfl, wrapped_quotient_of_fit D⟩

/-- Witness of C9: difficulty 1000. -/
theorem on_schedule_fixpoint_witness :
    ∃ my, init_stats (on_schedule_keeper 1000 7 9 1000) = outcome.returned my ∧
      my._cur_difficulty = 1000 ∧ my._median_time_error_sec = 0 ∧ my._next_difficulty = 1000 := by
  obtain ⟨my, h1, h2, h3, h4⟩ := on_schedule_fixpoint 1000 7 9 1000
  exact ⟨my, h1, h2, h3, h4 (by decide)⟩

/-- The difference of line 173 for block 6 of the scenario, timed 120 s after its
expected time: 120 s, whatever the origin. -/
theorem late_difference (origin_time : Int) :
    to_int64 (to_int64 (origin_time + 480000000) - to_int64 (origin_time + 360000000)) =
      120000000 := by
  unfold to_int64
  omega

/-- The window of the scenario after block 6 has been appended 120 s late. -/
theorem late_block_appended (origin_time : Int) (d0 d1 D : Nat) :
    append_record
      { on_schedule_keeper origin_time d0 d1 D with
        _median_time_error_sec := 0,
        _cur_time := to_int64 (origin_time + 300000000),
        _cur_difficulty := D,
        _next_difficulty := D * 10000000 % 2 ^ 64 / 10000000 }
      6 (to_int64 (origin_time + 480000000)) D =
      late_block_keeper origin_time D D (D * 10000000 % 2 ^ 64 / 10000000)
        (to_int64 (origin_time + 300000000)) := by
  rw [on_schedule_keeper_eq]
  simp [late_block_keeper, append_record, error_sec, expected_time_eq, time_record.mk4,
    late_difference, error_sec_of_late, to_int32_late]

/-- The time error of `_records[a]` read from the list of the time errors. -/
theorem record_at_time_error (my : time_keeper_impl) (a : Nat) :
    (record_at my a).time_error_sec =
      (my._records.map time_record.time_error_sec).getD a 0 := by
  unfold record_at
  generalize my._records = l
  induction l generalizing a with
  | nil => rfl
  | cons r l ih =>
    cases a with
    | zero => rfl
    | succ a => exact ih a

/-- The selection on the time errors depends on the list of the errors only. -/
theorem time_selection_eq (my : time_keeper_impl) (index : List Nat) :
    nth_element (fun a b => decide
      ((record_at my a).time_error_sec < (record_at my b).time_error_sec)) index =
    nth_element (fun a b => decide
      ((my._records.map time_record.time_error_sec).getD a 0 <
        (my._records.map time_record.time_error_sec).getD b 0)) index := by
  congr 1
  funext a b
  rw [record_at_time_error, record_at_time_error]

/-- The selection on the errors 0, 0, 0, 0, 120 puts position 2 in the middle. -/
theorem late_block_selection :
    (nth_element (fun a b => decide
      (([0, 0, 0, 0, 120] : List Int).getD a 0 < ([0, 0, 0, 0, 120] : List Int).getD b 0))
      (List.range 5))[5 / 2]? = some 2 := by
  decide

/-- The statistics of the window made of blocks 2 to 6. -/
theorem late_block_stats (origin_time : Int) (c n : Nat) (t : Int) (D : Nat) :
    update_stats (late_block_keeper origin_time D c n t) =
      some (late_block_keeper origin_time D D (D * 10000000 % 2 ^ 64 / 10000000)
        (to_int64 (origin_time + 360000000))) := by
  obtain ⟨i, rt, rd, hi, hrt, _, hrd, hs⟩ := update_stats_index
    (late_block_keeper origin_time D c n t)
    (by simp [late_block_keeper]) (by simp [late_block_keeper])
  rw [time_selection_eq] at hi
  have hi1 : some 2 = some i := late_block_selection.symm.trans hi
  have hi2 : i = 2 := (Option.some.inj hi1).symm
  have ht : rt.time_error_sec = 0 := by
    rw [hi2] at hrt
    simp [late_block_keeper] at hrt
    rw [← hrt]
  have hd : rd.block_difficulty = D := by
    simp only [late_block_keeper, List.mem_cons, List.mem_singleton, List.not_mem_nil,
      or_false] at hrd
    rcases hrd with h | h | h | h | h <;> rw [h]
  have hh : head_block_num (late_block_keeper origin_time D c n t) = 6 := rfl
  have he : expected_time (late_block_keeper origin_time D c n t) 6 =
      to_int64 (origin_time + 360000000) := by
    rw [expected_time_eq]
    show to_int64 (origin_time + ((6 : Nat) : Int) * 60 * 1000000) = _
    rw [show origin_time + ((6 : Nat) : Int) * 60 * 1000000 = origin_time + 360000000 by omega]
  rw [hs, ht, hd, stats_of_zero, hh, he]
  rfl

/-- The time of block 6 of the scenario, 120 s after its expected time, as the
64-bit sum gives it. -/
theorem late_block_time (origin_time : Int) (d0 d1 D : Nat) :
    to_int64 (expected_time
        { on_schedule_keeper origin_time d0 d1 D with
          _median_time_error_sec := 0,
          _cur_time := to_int64 (origin_time + 300000000),
          _cur_difficulty := D,
          _next_difficulty := D * 10000000 % 2 ^ 64 / 10000000 } 6 + seconds 120) =
      to_int64 (origin_time + 480000000) := by
  have h := on_schedule_expected_time origin_time d0 d1 D 6
  have h2 : seconds 120 = 120000000 := by decide
  simp only [expected_time] at h ⊢
  rw [h, h2, to_int64_add_left]
  rw [show origin_time + ((6 : Nat) : Int) * 60000000 + 120000000 = origin_time + 480000000
    by omega]

/-- The push of block 6, 120 s late, on the five blocks on schedule, when the
time passes the test of line 169. -/
theorem late_block_pushed (min_back_sec : Nat) (origin_time : Int) (d0 d1 D : Nat)
    (hgrace : to_int64 (origin_time + 480000000) ≥
      to_int64 (to_int64 (origin_time + 300000000) - seconds (min_back_sec : Int))) :
    push min_back_sec
      { on_schedule_keeper origin_time d0 d1 D with
        _median_time_error_sec := 0,
        _cur_time := to_int64 (origin_time + 300000000),
        _cur_difficulty := D,
        _next_difficulty := D * 10000000 % 2 ^ 64 / 10000000 }
      6 (to_int64 (origin_time + 480000000)) D =
    outcome.returned (late_block_keeper origin_time D D (D * 10000000 % 2 ^ 64 / 10000000)
      (to_int64 (origin_time + 360000000))) := by
  have hback : (on_schedule_keeper origin_time d0 d1 D)._records.getLast? =
      some { block_num := 5, block_time := to_int64 (origin_time + 300000000),
             block_difficulty := D, time_error_sec := 0 } := by
    rw [on_schedule_keeper_eq]
    rfl
  rw [push_of_preconditions min_back_sec
    { on_schedule_keeper origin_time d0 d1 D with
      _median_time_error_sec := 0,
      _cur_time := to_int64 (origin_time + 300000000),
      _cur_difficulty := D,
      _next_difficulty := D * 10000000 % 2 ^ 64 / 10000000 }
    { block_num := 5, block_time := to_int64 (origin_time + 300000000),
      block_difficulty := D, time_error_sec := 0 }
    6 (to_int64 (origin_time + 480000000)) D hback (by decide : (5 + 1) % 2 ^ 32 = 6)
    (wrapped_quotient_le D) hgrace, late_block_appended, late_block_stats]

/-- The push of block 6, 120 s late, on the five blocks on schedule, when the
time does not pass the test of line 169. -/
theorem late_block_refused (min_back_sec : Nat) (origin_time : Int) (d0 d1 D : Nat)
    (hgrace : to_int64 (origin_time + 480000000) <
      to_int64 (to_int64 (origin_time + 300000000) - seconds (min_back_sec : Int))) :
    push min_back_sec
      { on_schedule_keeper origin_time d0 d1 D with
        _median_time_error_sec := 0,
        _cur_time := to_int64 (origin_time + 300000000),
        _cur_difficulty := D,
        _next_difficulty := D * 10000000 % 2 ^ 64 / 10000000 }
      6 (to_int64 (origin_time + 480000000)) D =
    outcome.threw fc_assert.block_time
      { on_schedule_keeper origin_time d0 d1 D with
        _median_time_error_sec := 0,
        _cur_time := to_int64 (origin_time + 300000000),
        _cur_difficulty := D,
        _next_difficulty := D * 10000000 % 2 ^ 64 / 10000000 } := by
  have hback : (on_schedule_keeper origin_time d0 d1 D)._records.getLast? =
      some { block_num := 5, block_time := to_int64 (origin_time + 300000000),
             block_difficulty := D, time_error_sec := 0 } := by
    rw [on_schedule_keeper_eq]
    rfl
  exact push_refused_time min_back_sec
    { on_schedule_keeper origin_time d0 d1 D with
      _median_time_error_sec := 0,
      _cur_time := to_int64 (origin_time + 300000000),
      _cur_difficulty := D,
      _next_difficulty := D * 10000000 % 2 ^ 64 / 10000000 }
    { block_num := 5, block_time := to_int64 (origin_time + 300000000),
      block_difficulty := D, time_error_sec := 0 }
    6 (to_int64 (origin_time + 480000000)) D hback (by decide : (5 + 1) % 2 ^ 32 = 6)
    (wrapped_quotient_le D) hgrace

/-- Counterexample to C10 as stated.  (1) With `D = 100` and the origin 0, block 6
pushed 120 s late on the five blocks on schedule is accepted, the median time
error stays 0 and the next difficulty is 100, which is not below `D`.  (2) With
the origin `2 ^ 63 - 480000000` microseconds the expected time of block 6 is
`2 ^ 63 - 120000000`; the 64-bit sum with 120 s is `-2 ^ 63`, which is earlier
than `_cur_time` minus one hour, and the push throws. -/
theorem late_block_scenario_counterexample :
    (∃ my my1, init_stats (on_schedule_keeper 0 0 0 100) = outcome.returned my ∧
      push 3600 my 6 (to_int64 (expected_time my 6 + seconds 120)) 100 = outcome.returned my1 ∧
      my1._median_time_error_sec = 0 ∧ my1._next_difficulty = 100 ∧
      ¬ (my1._next_difficulty < 100)) ∧
    (∃ my, init_stats (on_schedule_keeper 9223372036374775808 0 0 100) = outcome.returned my ∧
      expected_time my 6 = 9223372036734775808 ∧
      to_int64 (expected_time my 6 + seconds 120) = -9223372036854775808 ∧
      to_int64 (my._cur_time - seconds 3600) = 9223372033074775808 ∧
      push 3600 my 6 (to_int64 (expected_time my 6 + seconds 120)) 100 =
        outcome.threw fc_assert.block_time my) :=
  ⟨⟨_, _, rfl, rfl, by decide⟩, ⟨_, rfl, by decide⟩⟩

/-- C10 (amended): the late block.  From the state reached by an interval of 60 s,
a window of 5 and blocks 1 to 5 on schedule with difficulty `D`, `block_time` is
`expected_time (6) + 120 s` as the 64-bit sum gives it.  The push of block 6 with
that time and difficulty `D` returns exactly when the time passes the test of
line 169, and throws otherwise; it passes, and is the exact sum, whenever
`origin_time + 480 s` is below `2 ^ 63` microseconds and `origin_time + 300 s`
minus the grace period is at least `-2 ^ 63` microseconds.  The push that
returns makes block 6 the last retained block, leaves the median time error at 0
(four of the five retained errors are 0), and leaves `_next_difficulty` not
above `D`, and equal to `D` when `D * 10000000` is below `2 ^ 64`. -/
theorem late_block_scenario (min_back_sec : Nat) (origin_time : Int) (d0 d1 D : Nat) :
    ∃ my, init_stats (on_schedule_keeper origin_time d0 d1 D) = outcome.returned my ∧
      (-2 ^ 63 ≤ origin_time + 300000000 - (min_back_sec : Int) * 1000000 →
        origin_time + 480000000 < 2 ^ 63 →
        to_int64 (expected_time my 6 + seconds 120) = origin_time + 480000000 ∧
        to_int64 (expected_time my 6 + seconds 120) ≥
          to_int64 (my._cur_time - seconds (min_back_sec : Int))) ∧
      (to_int64 (expected_time my 6 + seconds 120) ≥
          to_int64 (my._cur_time - seconds (min_back_sec : Int)) →
        ∃ my1, push min_back_sec my 6 (to_int64 (expected_time my 6 + seconds 120)) D =
            outcome.returned my1 ∧
          head_block_num my1 = 6 ∧ my1._cur_difficulty = D ∧
          my1._median_time_error_sec = 0 ∧ my1._next_difficulty ≤ D ∧
          (D * 10000000 < 2 ^ 64 → my1._next_difficulty = D)) ∧
      (to_int64 (expected_time my 6 + seconds 120) <
          to_int64 (my._cur_time - seconds (min_back_sec : Int)) →
        push min_back_sec my 6 (to_int64 (expected_time my 6 + seconds 120)) D =
          outcome.threw fc_assert.block_time my) := by
  refine ⟨_, stats_on_schedule origin_time d0 d1 D, fun hlo hhi => ?_, fun hgrace => ?_,
    fun hgrace => ?_⟩
  · rw [late_block_time]
    show to_int64 (origin_time + 480000000) = origin_time + 480000000 ∧
      to_int64 (origin_time + 480000000) ≥
        to_int64 (to_int64 (origin_time + 300000000) - seconds (min_back_sec : Int))
    rw [threshold_eq, to_int64_sub_left]
    unfold to_int64
    omega
  · rw [late_block_time] at hgrace ⊢
    exact ⟨_, late_block_pushed min_back_sec origin_time d0 d1 D hgrace, rfl, rfl, rfl,
      wrapped_quotient_le D, wrapped_quotient_of_fit D⟩
  · rw [late_block_time] at hgrace ⊢
    exact late_block_refused min_back_sec origin_time d0 d1 D hgrace

/-- Witness of C10: difficulty 1000, the origin 1000 microseconds and one hour of
grace. -/
theorem late_block_scenario_witness :
    ∃ my my1, init_stats (on_schedule_keeper 1000 7 9 1000) = outcome.returned my ∧
      push 3600 my 6 (to_int64 (expected_time my 6 + seconds 120)) 1000 = outcome.returned my1 ∧
      my1._median_time_error_sec = 0 ∧ my1._next_difficulty = 1000 := by
  obtain ⟨my, h1, hfit, hret, _⟩ := late_block_scenario 3600 1000 7 9 1000
  obtain ⟨my1, h2, _, _, h3, _, h4⟩ := hret (hfit (by decide) (by decide)).2
  exact ⟨my, my1, h1, h2, h3, h4 (by decide)⟩

/-! ## Accessors, `pop` and `push_init` -/

/-- Counterexample to C16 as stated: the last retained block is block 4294967295.
`next_block_num ()` is 0, the 32-bit sum of line 196, and not 4294967295 plus
one; `next_time ()` is the expected time of block 0. -/
theorem next_block_num_and_time_counterexample :
    last_block_keeper._records.map time_record.block_num = [4294967295] ∧
    (next_block_num_call last_block_keeper).1 = 0 ∧
    (next_block_num_call last_block_keeper).1 ≠ 4294967295 + 1 ∧
    (next_time_call last_block_keeper).1 = expected_time last_block_keeper 0 ∧
    expected_time last_block_keeper 0 = 0 := by
  decide

/-- C16 (amended): `next_block_num ()` is the block number of the last retained
record plus one taken in 32 bits (the return type): it is the sum itself exactly
when the sum is below `2 ^ 32`, and 0 after block 4294967295; it is 1 when no
record is retained; `next_time ()` is `expected_time (next_block_num ())`;
neither call changes the state of the object. -/
theorem next_block_num_and_time (my : time_keeper_impl) :
    (∀ back, my._records.getLast? = some back →
      (next_block_num_call my).1 = (back.block_num + 1) % 2 ^ 32 ∧
      ((next_block_num_call my).1 = back.block_num + 1 ↔ back.block_num + 1 < 2 ^ 32)) ∧
    (my._records = [] → (next_block_num_call my).1 = 1) ∧
    (next_time_call my).1 = expected_time my (next_block_num_call my).1 ∧
    (next_block_num_call my).2 = my ∧ (next_time_call my).2 = my := by
  refine ⟨fun back hback => ?_, fun hnil => ?_, rfl, rfl, rfl⟩
  · have h : (next_block_num_call my).1 = (back.block_num + 1) % 2 ^ 32 := by
      simp only [next_block_num_call, next_block_num, head_block_num, hback]
    refine ⟨h, ?_⟩
    rw [h]
    omega
  · simp only [next_block_num_call, next_block_num, head_block_num, hnil, List.getLast?_nil]
    rfl

/-- Witness of C16: the keeper whose last block is 5, and the keeper just
constructed. -/
theorem next_block_num_and_time_witness :
    (next_block_num_call sample_keeper).1 = 5 + 1 ∧
    (next_block_num_call (time_keeper_new 0 0)).1 = 1 :=
  ⟨((next_block_num_and_time sample_keeper).1
      { block_num := 5, block_time := 300000000, block_difficulty := 100, time_error_sec := 0 }
      rfl).2.mpr (by decide),
   (next_block_num_and_time (time_keeper_new 0 0)).2.1 rfl⟩

/-- C17: `pop` is not implemented.  For every state and every `block_num` the call
throws (the assertion `!"Not tested"` is false), and the object is in the state
it had: no record is removed and no statistic is changed. -/
theorem pop_not_implemented (my : time_keeper_impl) (block_num : Nat) :
    ∃ my1, pop my block_num = outcome.threw fc_assert.not_tested my1 ∧
      my1._records = my._records ∧ my1._cur_difficulty = my._cur_difficulty ∧
      my1._next_difficulty = my._next_difficulty ∧ my1._cur_time = my._cur_time ∧
      my1._median_time_error_sec = my._median_time_error_sec ∧ my1 = my :=
  ⟨my, rfl, rfl, rfl, rfl, rfl, rfl, rfl⟩

/-- C19: the frame of `push_init`.  For every state and all arguments the call
changes the retained records only: the two difficulties, the time estimate and
the median time error are the same after the call as before, and so is the
configuration. -/
theorem push_init_frame (my : time_keeper_impl) (block_num : Nat) (block_time : Int)
    (block_difficulty : Nat) :
    push_init my block_num block_time block_difficulty =
      { my with _records := (push_init my block_num block_time block_difficulty)._records } ∧
    (push_init my block_num block_time block_difficulty)._cur_difficulty = my._cur_difficulty ∧
    (push_init my block_num block_time block_difficulty)._next_difficulty =
      my._next_difficulty ∧
    (push_init my block_num block_time block_difficulty)._cur_time = my._cur_time ∧
    (push_init my block_num block_time block_difficulty)._median_time_error_sec =
      my._median_time_error_sec := by
  unfold push_init append_record
  simp only
  split <;> exact ⟨rfl, rfl, rfl, rfl, rfl⟩

/-! ## The time estimate and the recorded error -/

/-- Counterexample to C12 as stated: the interval is 10000000 s and block 1000000
is entered by `push_init` with the time 0.  The exact
`_origin_time + 1000000 * _interval_sec` seconds are `10 ^ 19` microseconds, above
`2 ^ 63`; `expected_time (1000000)` is `10 ^ 19 - 2 ^ 64`, and after `init_stats`
the time estimate is that plus the median error, not `10 ^ 19` plus the median
error. -/
theorem current_time_estimate_counterexample :
    ∃ my, init_stats (push_init (configure (time_keeper_new 0 0) 0 10000000000000 5)
        1000000 0 100) = outcome.returned my ∧
      my._origin_time = 0 ∧ my._interval_sec = 10000000 ∧ head_block_num my = 1000000 ∧
      my._origin_time + (1000000 : Int) * my._interval_sec * 1000000 = 10 ^ 19 ∧
      expected_time my 1000000 = 10 ^ 19 - 2 ^ 64 ∧
      expected_time my 1000000 = -8446744073709551616 ∧
      my._median_time_error_sec = -1456597523 ∧
      my._cur_time = -8448200671232551616 ∧
      my._cur_time ≠ 10 ^ 19 + my._median_time_error_sec * 1000000 :=
  ⟨_, rfl, by decide⟩

/-- C12 (amended): the current time estimate.  For a window that is not empty,
whose last record has block number `n`: `update_current_time` returns and leaves
`_cur_time` equal to `expected_time (n)` plus `_median_time_error_sec` seconds,
the sum reduced to 64 bits; it is the exact sum precisely when the exact sum is a
64-bit value.  Every state that `update_stats` leaves has that same property (and
`update_stats` returns when the interval is not zero).  `expected_time (n)` is
`_origin_time + n * _interval_sec` seconds reduced to 64 bits, and is the exact
value precisely when the exact value is a 64-bit value; after `configure` with an
interval of `k` whole seconds `_interval_sec` is `k`. -/
theorem current_time_estimate (my : time_keeper_impl) (back : time_record)
    (hback : my._records.getLast? = some back) :
    (∃ my1 index1, update_current_time my (List.range my._records.length) = some (my1, index1) ∧
      my1._cur_time =
        to_int64 (expected_time my1 back.block_num + my1._median_time_error_sec * 1000000) ∧
      (my1._cur_time = expected_time my1 back.block_num + my1._median_time_error_sec * 1000000 ↔
        -2 ^ 63 ≤ expected_time my1 back.block_num + my1._median_time_error_sec * 1000000 ∧
        expected_time my1 back.block_num + my1._median_time_error_sec * 1000000 < 2 ^ 63)) ∧
    (∀ my1, update_stats my = some my1 →
      my1._records.getLast? = some back ∧
      my1._cur_time =
        to_int64 (expected_time my1 back.block_num + my1._median_time_error_sec * 1000000) ∧
      (my1._cur_time = expected_time my1 back.block_num + my1._median_time_error_sec * 1000000 ↔
        -2 ^ 63 ≤ expected_time my1 back.block_num + my1._median_time_error_sec * 1000000 ∧
        expected_time my1 back.block_num + my1._median_time_error_sec * 1000000 < 2 ^ 63)) ∧
    (my._interval_sec ≠ 0 → ∃ my1, update_stats my = some my1) ∧
    (∀ n : Nat,
      expected_time my n = to_int64 (my._origin_time + (n : Int) * my._interval_sec * 1000000) ∧
      (expected_time my n = my._origin_time + (n : Int) * my._interval_sec * 1000000 ↔
        -2 ^ 63 ≤ my._origin_time + (n : Int) * my._interval_sec * 1000000 ∧
        my._origin_time + (n : Int) * my._interval_sec * 1000000 < 2 ^ 63)) ∧
    (∀ (origin_time k : Int) (window n : Nat),
      (configure my origin_time (k * 1000000) window)._interval_sec = k ∧
      expected_time (configure my origin_time (k * 1000000) window) n =
        to_int64 (origin_time + (n : Int) * k * 1000000)) := by
  have hne : my._records ≠ [] := by
    intro h
    rw [h] at hback
    exact Option.noConfusion hback
  have hhead : head_block_num my = back.block_num := by
    simp only [head_block_num, hback]
  have hsum : ∀ (e m : Int), to_int64 (e + seconds m) = to_int64 (e + m * 1000000) := by
    intro e m
    unfold seconds
    rw [to_int64_add_right]
  have hk : ∀ k : Int, Int.tdiv (k * 1000000) 1000000 = k :=
    fun k => Int.mul_tdiv_cancel k (by decide)
  refine ⟨?_, fun my1 h => ?_, fun hint => ?_, fun n => ?_, fun origin_time k window n => ?_⟩
  · have hr : List.range my._records.length ≠ [] := by
      intro h
      have := congrArg List.length h
      simp at this
      exact hne this
    obtain ⟨i, r, index1, _, _, _, _, h⟩ := update_current_time_eq my _ hr
      (fun i hi => List.mem_range.mp hi)
    refine ⟨_, index1, h, ?_, ?_⟩
    · show to_int64 (expected_time my (head_block_num my) + seconds r.time_error_sec) =
        to_int64 (expected_time my back.block_num + r.time_error_sec * 1000000)
      rw [hhead, hsum]
    · show to_int64 (expected_time my (head_block_num my) + seconds r.time_error_sec) =
          expected_time my back.block_num + r.time_error_sec * 1000000 ↔
        -2 ^ 63 ≤ expected_time my back.block_num + r.time_error_sec * 1000000 ∧
        expected_time my back.block_num + r.time_error_sec * 1000000 < 2 ^ 63
      rw [hhead, hsum]
      exact to_int64_eq_iff _
  · have e := update_stats_some my my1 h
    have e1 : my1._records.getLast? = some back := by
      rw [e]
      exact hback
    have e2 : my1._cur_time = to_int64 (expected_time my1 back.block_num +
        my1._median_time_error_sec * 1000000) := by
      rw [← hsum, ← hhead]
      rw [e]
      rfl
    refine ⟨e1, e2, ?_⟩
    rw [e2]
    exact to_int64_eq_iff _
  · obtain ⟨_, _, _, _, h⟩ := update_stats_eq my hne hint
    exact ⟨_, h⟩
  · rw [expected_time_eq]
    exact ⟨rfl, to_int64_eq_iff _⟩
  · rw [expected_time_eq]
    simp only [configure, hk]
    exact ⟨trivial, trivial⟩

/-- Witness of C12: the keeper whose single retained block is block 5. -/
theorem current_time_estimate_witness :
    ∃ my1 index1, update_current_time sample_keeper (List.range sample_keeper._records.length) =
        some (my1, index1) ∧
      my1._cur_time =
        to_int64 (expected_time my1 5 + my1._median_time_error_sec * 1000000) := by
  obtain ⟨my1, index1, h1, h2, _⟩ := (current_time_estimate sample_keeper
    { block_num := 5, block_time := 300000000, block_difficulty := 100, time_error_sec := 0 }
    rfl).1
  exact ⟨my1, index1, h1, h2⟩

/-- Counterexample to C13 as stated: block 1 is entered by `push_init` with a
time `2 ^ 31` seconds after its expected time; the record stores the error
`-2 ^ 31`. -/
theorem recorded_time_error_counterexample :
    (60000000 + 2 ^ 31 * 1000000 -
      expected_time (configure (time_keeper_new 0 0) 0 60000000 5) 1) = seconds (2 ^ 31) ∧
    (push_init (configure (time_keeper_new 0 0) 0 60000000 5) 1
      (60000000 + 2 ^ 31 * 1000000) 100)._records =
      [{ block_num := 1, block_time := 60000000 + 2 ^ 31 * 1000000, block_difficulty := 100,
         time_error_sec := -2 ^ 31 }] := by
  decide

/-- The error of lines 150 and 173 when the exact difference, in whole seconds,
fits 32 bits: the 64-bit difference is the exact one. -/
theorem error_sec_of_fits (my : time_keeper_impl) (block_num : Nat) (block_time : Int)
    (hlo : -2 ^ 31 ≤ Int.tdiv (block_time - expected_time my block_num) 1000000)
    (hhi : Int.tdiv (block_time - expected_time my block_num) 1000000 < 2 ^ 31) :
    error_sec my block_num block_time =
      Int.tdiv (block_time - expected_time my block_num) 1000000 := by
  obtain ⟨h1, h2⟩ := fits_of_tdiv_fits _ hlo hhi
  unfold error_sec
  rw [to_int64_of_fits _ h1 h2]

/-- C13 (amended): the recorded time error.  For every state, `block_num` and
`block_time` such that the difference `block_time - expected_time (block_num)`,
in whole seconds (rounded toward zero), fits 32 bits: the record that `push_init`
appends, and that a `push` that returns appends, stores that difference as
`time_error_sec`, next to the three arguments; the deque after the call is the
deque before it with this record at the back, less its front record when it is
longer than `_window`. -/
theorem recorded_time_error (my : time_keeper_impl) (block_num : Nat) (block_time : Int)
    (block_difficulty : Nat)
    (hlo : -2 ^ 31 ≤ Int.tdiv (block_time - expected_time my block_num) 1000000)
    (hhi : Int.tdiv (block_time - expected_time my block_num) 1000000 < 2 ^ 31) :
    ∃ r : time_record,
      r.time_error_sec = Int.tdiv (block_time - expected_time my block_num) 1000000 ∧
      r.block_num = block_num ∧ r.block_time = block_time ∧
      r.block_difficulty = block_difficulty ∧
      (push_init my block_num block_time block_difficulty)._records =
        (if (my._records ++ [r]).length > my._window then (my._records ++ [r]).tail
         else my._records ++ [r]) ∧
      (∀ (min_back_sec : Nat) (my1 : time_keeper_impl),
        push min_back_sec my block_num block_time block_difficulty = outcome.returned my1 →
        my1._records = (push_init my block_num block_time block_difficulty)._records) := by
  have h32 : to_int32 (error_sec my block_num block_time) =
      Int.tdiv (block_time - expected_time my block_num) 1000000 := by
    rw [error_sec_of_fits my block_num block_time hlo hhi]
    unfold to_int32
    omega
  refine ⟨time_record.mk4 block_num block_time block_difficulty
    (error_sec my block_num block_time), h32, rfl, rfl, rfl, ?_, ?_⟩
  · unfold push_init append_record
    simp only
    split <;> rfl
  · intro min_back_sec my1 h
    unfold push at h
    split at h
    · exact outcome.noConfusion h
    · split at h
      · exact outcome.noConfusion h
      · split at h
        · exact outcome.noConfusion h
        · split at h
          · exact outcome.noConfusion h
          · split at h
            · exact outcome.noConfusion h
            · rename_i my2 hs
              have hf := update_stats_frame _ _ hs
              rw [← outcome.returned.inj h]
              exact hf.1

/-- Witness of C13: block 6 is entered 120 s late on the keeper whose last block
is 5. -/
theorem recorded_time_error_witness :
    ∃ r : time_record, r.time_error_sec = 120 ∧
      (push_init sample_keeper 6 480000000 100)._records = sample_keeper._records ++ [r] := by
  obtain ⟨r, h1, _, _, _, h2, _⟩ :=
    recorded_time_error sample_keeper 6 480000000 100 (by decide) (by decide)
  refine ⟨r, ?_, ?_⟩
  · rw [h1]
    decide
  · rw [h2]
    exact if_neg (by simp [sample_keeper])

/-- C18 (the code at a failing input): a keeper is configured with an interval of
999999 microseconds, so `_interval_sec` is 0, and block 1 is entered.  The window
is not empty, the floored `current_interval` is 1, which is not below
`_interval_sec`, so line 98 divides by `_interval_sec`, that is by zero. -/
theorem zero_interval_divides_by_zero :
    sub_second_keeper._records ≠ [] ∧ sub_second_keeper._interval_sec = 0 ∧
    (∃ my1 index1, update_current_time sub_second_keeper
        (List.range sub_second_keeper._records.length) = some (my1, index1) ∧
      current_interval my1 = 1 ∧ ¬ (current_interval my1 < my1._interval_sec) ∧
      int64_div (my1._median_time_error_sec * 1000000) my1._interval_sec = none ∧
      time_error_percent my1 = none) ∧
    init_stats sub_second_keeper = outcome.undefined :=
  ⟨by decide, by decide, ⟨_, _, rfl, by decide⟩, by decide⟩

/-! ## The sliding window -/

/-- Appending to the last `w` elements and dropping the front one when there are
more than `w` gives the last `w` elements of the longer list. -/
theorem keep_last_append (w : Nat) (l : List time_record) (r : time_record) :
    (if (l.drop (l.length - w) ++ [r]).length > w then (l.drop (l.length - w) ++ [r]).tail
     else l.drop (l.length - w) ++ [r]) =
      (l ++ [r]).drop ((l ++ [r]).length - w) := by
  by_cases h : l.length < w
  · have h0 : l.length - w = 0 := by omega
    have h1 : (l ++ [r]).length - w = 0 := by simp; omega
    rw [h0, h1]
    simp only [List.drop_zero]
    rw [if_neg (by simp; omega)]
  · have hlen : (l.drop (l.length - w)).length = w := by simp; omega
    rw [if_pos (by rw [List.length_append, hlen]; simp)]
    by_cases hw : w = 0
    · subst hw
      simp
    · have hne : l.drop (l.length - w) ≠ [] := by
        intro hnil
        rw [hnil] at hlen
        exact hw hlen.symm
      rw [List.tail_append_of_ne_nil hne, List.tail_drop]
      have h2 : (l ++ [r]).length - w = l.length - w + 1 := by simp; omega
      rw [h2, List.drop_append_of_le_length (by omega)]

/-- The record an entering call constructs depends on the state through the
origin and the interval only. -/
theorem entry_call_record_congr (my my1 : time_keeper_impl) (call : entry_call)
    (ho : my1._origin_time = my._origin_time) (hi : my1._interval_sec = my._interval_sec) :
    call.record my1 = call.record my := by
  cases call <;> simp only [entry_call.record, error_sec, expected_time, ho, hi]

/-- One entering call appends its record, drops the front record when the deque is
longer than `_window`, and keeps the configuration. -/
theorem enter_records (min_back_sec : Nat) (my my1 : time_keeper_impl) (call : entry_call)
    (h : enter min_back_sec my call = some my1) :
    my1._records =
      (if (my._records ++ [call.record my]).length > my._window then
         (my._records ++ [call.record my]).tail
       else my._records ++ [call.record my]) ∧
    my1._window = my._window ∧ my1._origin_time = my._origin_time ∧
    my1._interval_sec = my._interval_sec := by
  have happ : ∀ (b : Nat) (t : Int) (d : Nat),
      (append_record my b t d)._records =
        (if (my._records ++ [time_record.mk4 b t d (error_sec my b t)]).length >
            my._window then
           (my._records ++ [time_record.mk4 b t d (error_sec my b t)]).tail
         else my._records ++ [time_record.mk4 b t d (error_sec my b t)]) ∧
      (append_record my b t d)._window = my._window ∧
      (append_record my b t d)._origin_time = my._origin_time ∧
      (append_record my b t d)._interval_sec = my._interval_sec := by
    intro b t d
    unfold append_record
    simp only
    split <;> exact ⟨rfl, rfl, rfl, rfl⟩
  cases call with
  | push_init b t d =>
    simp only [enter, push_init] at h
    rw [← Option.some.inj h]
    exact happ b t d
  | push b t d =>
    simp only [enter] at h
    split at h
    · rename_i my2 hp
      rw [← Option.some.inj h]
      unfold push at hp
      split at hp
      · exact outcome.noConfusion hp
      · split at hp
        · exact outcome.noConfusion hp
        · split at hp
          · exact outcome.noConfusion hp
          · split at hp
            · exact outcome.noConfusion hp
            · split at hp
              · exact outcome.noConfusion hp
              · rename_i my3 hs
                have hf := update_stats_frame _ _ hs
                have ha := happ b t d
                rw [← outcome.returned.inj hp]
                exact ⟨hf.1.trans ha.1, hf.2.1.trans ha.2.1, hf.2.2.1.trans ha.2.2.1,
                  hf.2.2.2.trans ha.2.2.2⟩
    · exact Option.noConfusion h

/-- The invariant of the window along a sequence of entering calls: a deque that
holds the last `_window` of the records entered so far holds the last `_window`
of all the records at the end. -/
theorem enter_all_records (min_back_sec : Nat) (my0 : time_keeper_impl) (calls : List entry_call) :
    ∀ (my my1 : time_keeper_impl) (entered : List time_record),
      my._window = my0._window → my._origin_time = my0._origin_time →
      my._interval_sec = my0._interval_sec →
      my._records = entered.drop (entered.length - my0._window) →
      enter_all min_back_sec my calls = some my1 →
      my1._records = (entered ++ calls.map (entry_call.record my0)).drop
        ((entered ++ calls.map (entry_call.record my0)).length - my0._window) := by
  induction calls with
  | nil =>
    intro my my1 entered _ _ _ hrec h
    simp only [enter_all] at h
    rw [← Option.some.inj h, hrec]
    simp
  | cons call calls ih =>
    intro my my1 entered hw ho hi hrec h
    simp only [enter_all] at h
    split at h
    · exact Option.noConfusion h
    · rename_i my2 h2
      obtain ⟨e1, e2, e3, e4⟩ := enter_records min_back_sec my my2 call h2
      have hcall := entry_call_record_congr my0 my call ho hi
      rw [hcall, hrec, hw, keep_last_append] at e1
      have := ih my2 my1 (entered ++ [call.record my0]) (e2.trans hw) (e3.trans ho)
        (e4.trans hi) e1 h
      simpa using this

/-- C14: the bounded sliding window.  Starting from a keeper that retains no record
and is configured with window `w`, after any sequence of `k` calls of `push_init`
and of `push` that return, the retained records are the last `min (k, w)` of the
`k` records entered, in the order of entry; there are `min (k, w)` of them, which
is at most `w`. -/
theorem bounded_sliding_window (min_back_sec : Nat) (my my1 : time_keeper_impl)
    (calls : List entry_call) (hempty : my._records = [])
    (hrun : enter_all min_back_sec my calls = some my1) :
    my1._records = (calls.map (entry_call.record my)).drop
      (calls.length - min calls.length my._window) ∧
    my1._records.length = min calls.length my._window ∧
    my1._records.length ≤ my._window := by
  have h := enter_all_records min_back_sec my calls my my1 [] rfl rfl rfl
    (by rw [hempty]; simp) hrun
  simp only [List.nil_append, List.length_map] at h
  have hd : calls.length - min calls.length my._window = calls.length - my._window := by
    omega
  rw [hd]
  refine ⟨h, ?_, ?_⟩
  · rw [h, List.length_drop, List.length_map]
    omega
  · rw [h, List.length_drop, List.length_map]
    omega

/-- Witness of C14: a window of 2, blocks 1 and 2 entered by `push_init` and
block 3 by `push`; blocks 2 and 3 are retained. -/
theorem bounded_sliding_window_witness :
    ∃ my1, enter_all 3600 (configure (time_keeper_new 0 0) 0 60000000 2)
        [entry_call.push_init 1 60000000 100, entry_call.push_init 2 120000000 100,
         entry_call.push 3 180000000 100] = some my1 ∧
      my1._records.map time_record.block_num = [2, 3] ∧ my1._records.length ≤ 2 := by
  refine ⟨_, rfl, ?_⟩
  have h := bounded_sliding_window 3600 (configure (time_keeper_new 0 0) 0 60000000 2) _
    [entry_call.push_init 1 60000000 100, entry_call.push_init 2 120000000 100,
     entry_call.push 3 180000000 100] rfl rfl
  exact ⟨by rw [h.1]; decide, h.2.2⟩

/-! ## The value of the median -/

/-- A list partitioned around position `p` with pivot value `v`: the values up to
`p` are at most `v` and the values from `p` on are at least `v`. -/
theorem partition_counts {α : Type} [LinearOrder α] (l : List α) (p : Nat) (hp : p < l.length)
    (v : α) (hb : ∀ (i : Nat) (hi : i < l.length), i ≤ p → l.get ⟨i, hi⟩ ≤ v)
    (ha : ∀ (i : Nat) (hi : i < l.length), p ≤ i → v ≤ l.get ⟨i, hi⟩) :
    (∀ u, v < u → p + 1 ≤ l.countP (fun x => decide (x < u))) ∧
    l.countP (fun x => decide (x < v)) ≤ p := by
  constructor
  · intro u hu
    have hall : ∀ x ∈ l.take (p + 1), decide (x < u) = true := by
      intro x hx
      obtain ⟨i, hi, rfl⟩ := List.mem_take_iff_getElem.mp hx
      have hi2 : i < p + 1 := (Nat.lt_min.mp hi).1
      exact decide_eq_true (lt_of_le_of_lt (hb i (Nat.lt_min.mp hi).2 (by omega)) hu)
    have h1 : (l.take (p + 1)).countP (fun x => decide (x < u)) = (l.take (p + 1)).length :=
      List.countP_eq_length.mpr hall
    have h2 : (l.take (p + 1)).length = p + 1 := List.length_take_of_le (by omega)
    calc p + 1 = (l.take (p + 1)).countP (fun x => decide (x < u)) := by rw [h1, h2]
      _ ≤ (l.take (p + 1)).countP (fun x => decide (x < u)) +
          (l.drop (p + 1)).countP (fun x => decide (x < u)) := Nat.le_add_right _ _
      _ = l.countP (fun x => decide (x < u)) := by
          rw [← List.countP_append, List.take_append_drop]
  · have hnone : ∀ x ∈ l.drop p, ¬ (decide (x < v) = true) := by
      intro x hx
      obtain ⟨i, hi, rfl⟩ := List.mem_drop_iff_getElem.mp hx
      have := ha (p + i) (by omega) (by omega)
      simp only [decide_eq_true_eq, not_lt]
      exact this
    have h1 : (l.drop p).countP (fun x => decide (x < v)) = 0 := List.countP_eq_zero.mpr hnone
    calc l.countP (fun x => decide (x < v))
        = (l.take p).countP (fun x => decide (x < v)) +
          (l.drop p).countP (fun x => decide (x < v)) := by
          rw [← List.countP_append, List.take_append_drop]
      _ = (l.take p).countP (fun x => decide (x < v)) := by rw [h1, Nat.add_zero]
      _ ≤ (l.take p).length := List.countP_le_length _
      _ ≤ p := by rw [List.length_take]; exact Nat.min_le_left _ _

/-- Two rearrangements of the same values that are both partitioned around
position `p` have the same value at `p`. -/
theorem partition_value_unique {α : Type} [LinearOrder α] (l1 l2 : List α) (hperm : l1.Perm l2)
    (p : Nat) (hp1 : p < l1.length) (hp2 : p < l2.length)
    (hb1 : ∀ (i : Nat) (hi : i < l1.length), i ≤ p → l1.get ⟨i, hi⟩ ≤ l1.get ⟨p, hp1⟩)
    (ha1 : ∀ (i : Nat) (hi : i < l1.length), p ≤ i → l1.get ⟨p, hp1⟩ ≤ l1.get ⟨i, hi⟩)
    (hb2 : ∀ (i : Nat) (hi : i < l2.length), i ≤ p → l2.get ⟨i, hi⟩ ≤ l2.get ⟨p, hp2⟩)
    (ha2 : ∀ (i : Nat) (hi : i < l2.length), p ≤ i → l2.get ⟨p, hp2⟩ ≤ l2.get ⟨i, hi⟩) :
    l1.get ⟨p, hp1⟩ = l2.get ⟨p, hp2⟩ := by
  obtain ⟨c1, d1⟩ := partition_counts l1 p hp1 _ hb1 ha1
  obtain ⟨c2, d2⟩ := partition_counts l2 p hp2 _ hb2 ha2
  rcases lt_trichotomy (l1.get ⟨p, hp1⟩) (l2.get ⟨p, hp2⟩) with h | h | h
  · have := c1 _ h
    rw [hperm.countP_eq] at this
    omega
  · exact h
  · have := c2 _ h
    rw [← hperm.countP_eq] at this
    omega

/-- The ascending sort of rearranged values is the same list. -/
theorem insertionSort_perm_eq {α : Type} [LinearOrder α] (l1 l2 : List α) (h : l1.Perm l2) :
    l1.insertionSort (fun a b => a ≤ b) = l2.insertionSort (fun a b => a ≤ b) :=
  List.eq_of_perm_of_sorted
    (((List.perm_insertionSort _ l1).trans h).trans (List.perm_insertionSort _ l2).symm)
    (List.sorted_insertionSort _ l1) (List.sorted_insertionSort _ l2)

/-- The value at position `nth` after any selection that meets the contract of
`std::nth_element`, for a comparator that compares keys: it is the value at
position `nth` of the ascending sort of the keys. -/
theorem nth_element_post_value {α : Type} [LinearOrder α] (key : Nat → α)
    (index result : List Nat) (nth : Nat) (hn : nth < index.length)
    (hpost : nth_element_post (fun a b => decide (key a < key b)) index nth result) :
    ∃ i, result[nth]? = some i ∧ i ∈ index ∧
      ((index.map key).insertionSort (fun a b => a ≤ b))[nth]? = some (key i) := by
  obtain ⟨hperm, hpart⟩ := hpost
  have hlen : result.length = index.length := hperm.length_eq
  have hr : nth < result.length := by omega
  have hs := List.sorted_insertionSort (fun a b : α => a ≤ b) (index.map key)
  have hsp := List.perm_insertionSort (fun a b : α => a ≤ b) (index.map key)
  have hsl : nth < ((index.map key).insertionSort (fun a b => a ≤ b)).length := by
    rw [hsp.length_eq, List.length_map]; exact hn
  have hml : nth < (result.map key).length := by rw [List.length_map]; exact hr
  have hval := partition_value_unique (result.map key)
    ((index.map key).insertionSort (fun a b => a ≤ b))
    ((hperm.map key).trans hsp.symm) nth hml hsl
    (by
      intro i hi hle
      have hi1 : i < result.length := by rw [List.length_map] at hi; exact hi
      simp only [List.get_eq_getElem, List.getElem_map]
      rcases Nat.lt_or_eq_of_le hle with hlt | heq
      · have := (hpart i hi1 hr).1 hlt
        simp only [List.get_eq_getElem, decide_eq_false_iff_not, not_lt] at this
        exact this
      · subst heq
        exact le_refl _)
    (by
      intro i hi hle
      have hi1 : i < result.length := by rw [List.length_map] at hi; exact hi
      simp only [List.get_eq_getElem, List.getElem_map]
      rcases Nat.lt_or_eq_of_le hle with hlt | heq
      · have := (hpart i hi1 hr).2 hlt
        simp only [List.get_eq_getElem, decide_eq_false_iff_not, not_lt] at this
        exact this
      · subst heq
        exact le_refl _)
    (fun i hi hle => hs.rel_get_of_le (show (⟨i, hi⟩ : Fin _) ≤ ⟨nth, hsl⟩ from hle))
    (fun i hi hle => hs.rel_get_of_le (show (⟨nth, hsl⟩ : Fin _) ≤ ⟨i, hi⟩ from hle))
  refine ⟨result[nth], List.getElem?_eq_getElem hr, hperm.subset (List.getElem_mem hr), ?_⟩
  rw [List.getElem?_eq_getElem hsl]
  simp only [List.get_eq_getElem, List.getElem_map] at hval
  rw [hval]

/-- The insertion keeps a list ordered by the keys ordered. -/
theorem ordered_insert_sorted {α : Type} [LinearOrder α] (key : Nat → α) (a : Nat)
    (l : List Nat) (h : l.Pairwise (fun x y => key x ≤ key y)) :
    (ordered_insert (fun x y => decide (key x < key y)) a l).Pairwise
      (fun x y => key x ≤ key y) := by
  induction l with
  | nil => exact List.pairwise_singleton _ _
  | cons b l ih =>
    have hb : ∀ x ∈ l, key b ≤ key x := fun x hx => List.rel_of_pairwise_cons h hx
    have hl := List.Pairwise.of_cons h
    unfold ordered_insert
    by_cases hlt : key b < key a
    · rw [if_pos (decide_eq_true hlt)]
      refine List.Pairwise.cons ?_ (ih hl)
      intro x hx
      rcases (List.mem_cons.mp ((ordered_insert_perm _ a l).subset hx)) with rfl | hx
      · exact le_of_lt hlt
      · exact hb _ hx
    · rw [if_neg (by simpa using hlt)]
      have hab : key a ≤ key b := not_lt.mp hlt
      refine List.Pairwise.cons ?_ h
      intro x hx
      rcases List.mem_cons.mp hx with rfl | hx
      · exact hab
      · exact le_trans hab (hb _ hx)

/-- The selection of the embedding leaves the index vector ordered by the keys. -/
theorem nth_element_sorted {α : Type} [LinearOrder α] (key : Nat → α) (index : List Nat) :
    (nth_element (fun x y => decide (key x < key y)) index).Pairwise
      (fun x y => key x ≤ key y) := by
  induction index with
  | nil => exact List.Pairwise.nil
  | cons a l ih => exact ordered_insert_sorted key a _ ih

/-- The selection of the embedding meets the contract of `std::nth_element`, at
every position. -/
theorem nth_element_meets_post {α : Type} [LinearOrder α] (key : Nat → α) (index : List Nat)
    (nth : Nat) :
    nth_element_post (fun a b => decide (key a < key b)) index nth
      (nth_element (fun a b => decide (key a < key b)) index) := by
  refine ⟨nth_element_perm _ index, fun i hi hn => ⟨fun hlt => ?_, fun hlt => ?_⟩⟩
  · have := List.pairwise_iff_getElem.mp (nth_element_sorted key index) i nth hi hn hlt
    simp only [List.get_eq_getElem, decide_eq_false_iff_not, not_lt]
    exact this
  · have := List.pairwise_iff_getElem.mp (nth_element_sorted key index) nth i hn hi hlt
    simp only [List.get_eq_getElem, decide_eq_false_iff_not, not_lt]
    exact this

/-- Reading a field of the records through the positions `0, 1, ...` gives the
list of the field. -/
theorem map_record_at_range (my : time_keeper_impl) {α : Type} (f : time_record → α) :
    (List.range my._records.length).map (fun i => f (record_at my i)) = my._records.map f := by
  apply List.ext_getElem
  · simp
  · intro i h1 h2
    have hi : i < my._records.length := by simpa using h2
    simp [record_at, List.getElem?_eq_getElem hi]

/-- The record at the median position after any selection that meets the contract
of `std::nth_element`, for a comparator on a field of the records: its field is
the element at index `n / 2` of the ascending sort of the field. -/
theorem selected_record_value (my : time_keeper_impl) {α : Type} [LinearOrder α]
    (f : time_record → α) (index result : List Nat) (hne : my._records ≠ [])
    (hperm : index.Perm (List.range my._records.length))
    (hpost : nth_element_post (fun a b => decide (f (record_at my a) < f (record_at my b)))
      index (index.length / 2) result) :
    ∃ i r, result[index.length / 2]? = some i ∧ my._records[i]? = some r ∧
      sorted_median (my._records.map f) = some (f r) := by
  have hlen : index.length = my._records.length := by
    rw [hperm.length_eq, List.length_range]
  have hpos : 0 < my._records.length := List.length_pos.mpr hne
  have hn : index.length / 2 < index.length := by
    rw [hlen]; exact Nat.div_lt_self hpos (by decide)
  obtain ⟨i, h1, h2, h3⟩ := nth_element_post_value (fun i => f (record_at my i))
    index result (index.length / 2) hn hpost
  have hi : i < my._records.length := List.mem_range.mp (hperm.subset h2)
  have hrec : record_at my i = my._records[i] := by
    simp [record_at, List.getElem?_eq_getElem hi]
  refine ⟨i, my._records[i], h1, List.getElem?_eq_getElem hi, ?_⟩
  have hsort : (index.map (fun i => f (record_at my i))).insertionSort (fun a b => a ≤ b) =
      (my._records.map f).insertionSort (fun a b => a ≤ b) := by
    rw [← map_record_at_range my f]
    exact insertionSort_perm_eq _ _ (hperm.map _)
  rw [hsort] at h3
  simp only [hrec] at h3
  unfold sorted_median
  rw [List.length_map, ← hlen]
  exact h3

/-- The current difficulty `update_current_difficulty` leaves, on any
rearrangement of the positions, is the sorted median of the difficulties. -/
theorem update_current_difficulty_median (my : time_keeper_impl) (index : List Nat)
    (hne : my._records ≠ []) (hperm : index.Perm (List.range my._records.length)) :
    ∃ my1 index1, update_current_difficulty my index = some (my1, index1) ∧
      index1.Perm (List.range my._records.length) ∧ my1._records = my._records ∧
      sorted_median (my._records.map time_record.block_difficulty) =
        some my1._cur_difficulty := by
  obtain ⟨i, r, h1, h2, h3⟩ := selected_record_value my time_record.block_difficulty index
    (nth_element (fun a b => decide ((record_at my a).block_difficulty <
      (record_at my b).block_difficulty)) index) hne hperm
    (nth_element_meets_post (fun i => (record_at my i).block_difficulty) index _)
  refine ⟨{ my with _cur_difficulty := r.block_difficulty },
    nth_element (fun a b => decide ((record_at my a).block_difficulty <
      (record_at my b).block_difficulty)) index, ?_,
    (nth_element_perm _ index).trans hperm, rfl, h3⟩
  simp only [update_current_difficulty, h1, h2]

/-- The median time error `update_current_time` leaves, on any rearrangement of the
positions, is the sorted median of the time errors. -/
theorem update_current_time_median (my : time_keeper_impl) (index : List Nat)
    (hne : my._records ≠ []) (hperm : index.Perm (List.range my._records.length)) :
    ∃ my1 index1, update_current_time my index = some (my1, index1) ∧
      index1.Perm (List.range my._records.length) ∧ my1._records = my._records ∧
      sorted_median (my._records.map time_record.time_error_sec) =
        some my1._median_time_error_sec := by
  obtain ⟨i, r, h1, h2, h3⟩ := selected_record_value my time_record.time_error_sec index
    (nth_element (fun a b => decide ((record_at my a).time_error_sec <
      (record_at my b).time_error_sec)) index) hne hperm
    (nth_element_meets_post (fun i => (record_at my i).time_error_sec) index _)
  refine ⟨{ my with _median_time_error_sec := r.time_error_sec,
                    _cur_time := to_int64 (expected_time my (head_block_num my) +
                      seconds r.time_error_sec) },
    nth_element (fun a b => decide ((record_at my a).time_error_sec <
      (record_at my b).time_error_sec)) index, ?_,
    (nth_element_perm _ index).trans hperm, rfl, h3⟩
  simp only [update_current_time, h1, h2]
  rfl

/-- C22: safety of the online path.  For every state, whatever its `_window` (zero
included), and every block that passes the four assertions of `push`: after the
record is appended and the front one dropped when the deque is longer than
`_window`, the deque holds at least one record, so the median position `n / 2`
is below its length `n`; the two subscripted reads of `update_stats`, in
`update_current_time` and in `update_current_difficulty`, are in range (both
return); and `push` is then the recomputation on that deque. -/
theorem online_path_safety (min_back_sec : Nat) (my : time_keeper_impl) (back : time_record)
    (block_num : Nat) (block_time : Int) (block_difficulty : Nat)
    (hback : my._records.getLast? = some back)
    (hnum : (back.block_num + 1) % 2 ^ 32 = block_num)
    (hdiff : block_difficulty ≥ my._next_difficulty)
    (htime : block_time ≥ to_int64 (my._cur_time - seconds (min_back_sec : Int))) :
    (append_record my block_num block_time block_difficulty)._records ≠ [] ∧
    1 ≤ (append_record my block_num block_time block_difficulty)._records.length ∧
    (append_record my block_num block_time block_difficulty)._records.length / 2 <
      (append_record my block_num block_time block_difficulty)._records.length ∧
    (∃ my1 index1 my2 index2,
      update_current_time (append_record my block_num block_time block_difficulty)
        (List.range (append_record my block_num block_time block_difficulty)._records.length) =
        some (my1, index1) ∧
      update_current_difficulty my1 index1 = some (my2, index2)) ∧
    push min_back_sec my block_num block_time block_difficulty =
      (match update_stats (append_record my block_num block_time block_difficulty) with
       | none => outcome.undefined
       | some my1 => outcome.returned my1) := by
  have hne0 : my._records ≠ [] := by
    intro h
    rw [h] at hback
    exact Option.noConfusion hback
  obtain ⟨l, hl⟩ := append_record_records my block_num block_time block_difficulty hne0
  have hne : (append_record my block_num block_time block_difficulty)._records ≠ [] := by
    rw [hl]; simp
  have hpos : 0 < (append_record my block_num block_time block_difficulty)._records.length :=
    List.length_pos.mpr hne
  obtain ⟨my1, index1, h1, hp1, hr1, _⟩ := update_current_time_median
    (append_record my block_num block_time block_difficulty) _ hne (List.Perm.refl _)
  obtain ⟨my2, index2, h2, _, _, _⟩ := update_current_difficulty_median my1 index1
    (by rw [hr1]; exact hne) (by rw [hr1]; exact hp1)
  exact ⟨hne, hpos, Nat.div_lt_self hpos (by decide), ⟨my1, index1, my2, index2, h1, h2⟩,
    push_of_preconditions min_back_sec my back block_num block_time block_difficulty
      hback hnum hdiff htime⟩

/-- Witness of C22: a window of zero, on the keeper whose last block is 5. -/
theorem online_path_safety_witness :
    (append_record { sample_keeper with _window := 0 } 6 360000000 100)._records ≠ [] ∧
    (append_record { sample_keeper with _window := 0 } 6 360000000 100)._records.length / 2 <
      (append_record { sample_keeper with _window := 0 } 6 360000000 100)._records.length :=
  ⟨(online_path_safety 3600 { sample_keeper with _window := 0 }
      { block_num := 5, block_time := 300000000, block_difficulty := 100, time_error_sec := 0 }
      6 360000000 100 rfl (by decide) (by decide) (by decide)).1,
   (online_path_safety 3600 { sample_keeper with _window := 0 }
      { block_num := 5, block_time := 300000000, block_difficulty := 100, time_error_sec := 0 }
      6 360000000 100 rfl (by decide) (by decide) (by decide)).2.2.1⟩

end bts.blockchain

namespace bts

/-! ## Determinism of the proof of work -/

/-- The generator overwrites the whole of a buffer of `size` words. -/
theorem sfmt_fill_array64_eq {sha256 hash128 mini_pow : Type}
    (lib : pow_library sha256 hash128 mini_pow) (inp : sha256) (buf : List Nat) (size : Nat)
    (h : buf.length = size) :
    sfmt_fill_array64 lib inp buf size = (List.range size).map (lib.sfmt inp) := by
  unfold sfmt_fill_array64
  rw [List.drop_eq_nil_of_le (le_of_eq h), List.append_nil]

/-- C15: determinism of the proof of work.  For every input and every two initial
contents of the supplied buffer of 128 MiB (16777216 words of 64 bits) the two
runs of `proof_of_work (in, buffer)` return the same value: the generator
overwrites every word of the buffer before any word is read, so the buffer after
the fill, of 16777216 words, does not depend on what the buffer held.  The same
holds for `proof_of_work (in)`, whose buffer is not initialised. -/
theorem proof_of_work_deterministic {sha256 hash128 mini_pow : Type}
    (lib : pow_library sha256 hash128 mini_pow) (inp : sha256) (buffer1 buffer2 : List Nat)
    (h1 : buffer1.length = MB128 / 8) (h2 : buffer2.length = MB128 / 8) :
    MB128 / 8 = 16777216 ∧
    sfmt_fill_array64 lib inp buffer1 (MB128 / 8) =
      sfmt_fill_array64 lib inp buffer2 (MB128 / 8) ∧
    (sfmt_fill_array64 lib inp buffer1 (MB128 / 8)).length = MB128 / 8 ∧
    proof_of_work lib inp buffer1 = proof_of_work lib inp buffer2 ∧
    proof_of_work_alloc lib inp buffer1 = proof_of_work_alloc lib inp buffer2 := by
  have e1 := sfmt_fill_array64_eq lib inp buffer1 (MB128 / 8) h1
  have e2 := sfmt_fill_array64_eq lib inp buffer2 (MB128 / 8) h2
  have hp : proof_of_work lib inp buffer1 = proof_of_work lib inp buffer2 := by
    unfold proof_of_work
    simp only [e1, e2]
  refine ⟨by decide, by rw [e1, e2], ?_, hp, hp⟩
  rw [e1, List.length_map, List.length_range]

/-- Witness of C15: a buffer of zeros and a buffer of ones. -/
theorem proof_of_work_deterministic_witness :
    proof_of_work sample_pow_library 7 (List.replicate (MB128 / 8) 0) =
      proof_of_work sample_pow_library 7 (List.replicate (MB128 / 8) 1) :=
  (proof_of_work_deterministic sample_pow_library 7 (List.replicate (MB128 / 8) 0)
    (List.replicate (MB128 / 8) 1) (List.length_replicate _ _) (List.length_replicate _ _)).2.2.2.1

/-! ## The mixing loop -/

/-- Writing `a` over position `k` trades the word at `k` for `a`. -/
theorem set_perm (l : List Nat) (k a : Nat) (hk : k < l.length) :
    (l.getD k 0 :: l.set k a).Perm (a :: l) := by
  induction l generalizing k with
  | nil => exact absurd hk (Nat.not_lt_zero _)
  | cons b l ih =>
    cases k with
    | zero => exact List.Perm.swap a b l
    | succ k =>
      have hk1 : k < l.length := Nat.lt_of_succ_lt_succ hk
      show (l.getD k 0 :: b :: l.set k a).Perm (a :: b :: l)
      exact (List.Perm.swap b (l.getD k 0) (l.set k a)).trans
        (((ih k hk1).cons b).trans (List.Perm.swap a b l))

/-- The call `std::swap (buf[i], buf[j])` on two positions of the buffer rearranges
its words. -/
theorem swap_words_perm (buf : List Nat) (i j : Nat) (hi : i < buf.length)
    (hj : j < buf.length) : (swap_words buf i j).Perm buf := by
  induction buf generalizing i j with
  | nil => exact absurd hi (Nat.not_lt_zero _)
  | cons a l ih =>
    cases i with
    | zero =>
      cases j with
      | zero => exact List.Perm.refl _
      | succ j =>
        show (l.getD j 0 :: l.set j a).Perm (a :: l)
        exact set_perm l j a (Nat.lt_of_succ_lt_succ hj)
    | succ i =>
      cases j with
      | zero =>
        show (l.getD i 0 :: l.set i a).Perm (a :: l)
        exact set_perm l i a (Nat.lt_of_succ_lt_succ hi)
      | succ j =>
        show (a :: swap_words l i j).Perm (a :: l)
        exact (ih i j (Nat.lt_of_succ_lt_succ hi) (Nat.lt_of_succ_lt_succ hj)).cons a

/-- One round of the loop rearranges the words of the buffer. -/
theorem mix_round_perm (s : Nat) (st : List Nat × Nat) (x : Nat) (hs : 0 < s)
    (hlen : st.1.length = s) : (mix_round s st x).1.Perm st.1 := by
  unfold mix_round
  simp only
  exact swap_words_perm st.1 _ _ (by rw [hlen]; exact Nat.mod_lt _ hs)
    (by rw [hlen]; exact Nat.mod_lt _ hs)

/-- Any number of rounds of the loop rearranges the words of the buffer. -/
theorem mix_rounds_perm (s : Nat) (hs : 0 < s) (xs : List Nat) :
    ∀ st : List Nat × Nat, st.1.length = s → (xs.foldl (mix_round s) st).1.Perm st.1 := by
  induction xs with
  | nil => exact fun st _ => List.Perm.refl _
  | cons x xs ih =>
    intro st hlen
    have hp := mix_round_perm s st x hs hlen
    have hl : (mix_round s st x).1.length = s := by rw [hp.length_eq, hlen]
    exact (ih (mix_round s st x) hl).trans hp

/-- C21: the mixing loop rearranges the buffer.  With `N = MB128 / 8 = 16777216`:
the two positions of a round, `data % N` and `tmp % N`, are below `N`; a round
changes the buffer by the swap of the words at those two positions only; so for
every buffer of `N` words and every seed the buffer after the 1024 rounds is a
rearrangement of the buffer before them; and in `proof_of_work` the buffer that is
hashed is a rearrangement of the `N` generated words. -/
theorem mixing_loop_permutes {sha256 hash128 mini_pow : Type}
    (lib : pow_library sha256 hash128 mini_pow) (inp : sha256) (buffer_128m : List Nat)
    (h : buffer_128m.length = MB128 / 8) :
    MB128 / 8 = 16777216 ∧
    (∀ data word : Nat, data % (MB128 / 8) < MB128 / 8 ∧
      (data ^^^ word) % (MB128 / 8) < MB128 / 8) ∧
    (∀ (st : List Nat × Nat) (x : Nat),
      (mix_round (MB128 / 8) st x).1 =
        swap_words st.1 ((st.2 ^^^ st.1.getD (st.2 % (MB128 / 8)) 0) % (MB128 / 8))
          (st.2 % (MB128 / 8))) ∧
    (∀ (buf : List Nat) (data : Nat), buf.length = MB128 / 8 →
      ((List.range 1024).foldl (mix_round (MB128 / 8)) (buf, data)).1.Perm buf) ∧
    ((List.range 1024).foldl (mix_round (MB128 / 8))
        (sfmt_fill_array64 lib inp buffer_128m (MB128 / 8),
         (sfmt_fill_array64 lib inp buffer_128m (MB128 / 8)).getD (MB128 / 8 - 1) 0)).1.Perm
      ((List.range (MB128 / 8)).map (lib.sfmt inp)) ∧
    proof_of_work lib inp buffer_128m =
      lib.mini_pow_hash (lib.city_hash_crc_128
        ((List.range 1024).foldl (mix_round (MB128 / 8))
          (sfmt_fill_array64 lib inp buffer_128m (MB128 / 8),
           (sfmt_fill_array64 lib inp buffer_128m (MB128 / 8)).getD (MB128 / 8 - 1) 0)).1) := by
  have hs : 0 < MB128 / 8 := by decide
  have hfill := sfmt_fill_array64_eq lib inp buffer_128m (MB128 / 8) h
  have hlen : (sfmt_fill_array64 lib inp buffer_128m (MB128 / 8)).length = MB128 / 8 := by
    rw [hfill, List.length_map, List.length_range]
  refine ⟨by decide, fun data word => ⟨Nat.mod_lt _ hs, Nat.mod_lt _ hs⟩, fun st x => rfl,
    fun buf data hb => mix_rounds_perm (MB128 / 8) hs _ (buf, data) hb, ?_, rfl⟩
  have hp := mix_rounds_perm (MB128 / 8) hs (List.range 1024)
    (sfmt_fill_array64 lib inp buffer_128m (MB128 / 8),
     (sfmt_fill_array64 lib inp buffer_128m (MB128 / 8)).getD (MB128 / 8 - 1) 0) hlen
  simp only at hp
  rw [hfill] at hp ⊢
  exact hp

/-- Witness of C21: the stand-in library, the seed 7 and a buffer of zeros. -/
theorem mixing_loop_permutes_witness :
    ((List.range 1024).foldl (mix_round (MB128 / 8))
        (sfmt_fill_array64 sample_pow_library 7 (List.replicate (MB128 / 8) 0) (MB128 / 8),
         (sfmt_fill_array64 sample_pow_library 7 (List.replicate (MB128 / 8) 0)
           (MB128 / 8)).getD (MB128 / 8 - 1) 0)).1.Perm
      ((List.range (MB128 / 8)).map (sample_pow_library.sfmt 7)) :=
  (mixing_loop_permutes sample_pow_library 7 (List.replicate (MB128 / 8) 0)
    (List.length_replicate _ _)).2.2.2.2.1

end bts
